import Mathlib

/-!
# VoiceForge AI — formal model of the core routines

A shallow embedding, in Lean 4, of the verifiable parts of the VoiceForge AI
browser application: the WAV/PCM encoders (`PiperEngine.pcmToWav`,
`AudioEngine.bufferToWave`), the two-backend synthesis fallback chain
(`VoiceForgeEngine` / `PiperEngine` / `AudioEngine` / `PiperIntegration`),
voice-model loading (`PiperEngine.loadVoiceModel`), i18n string lookup
(`I18n.t`), the service-worker fetch handler (`sw.js`), and local-storage
history persistence (`getFromStorage` / `saveToStorage` /
`UIController.addToHistory`).

Modelling conventions:
* JavaScript `Float32Array` samples are modelled as rationals (`ℚ`); the
  arithmetic performed on them by the encoders (clamp, scale by a power of
  two, truncate) is exact in binary64/binary32 for the values involved, so
  rational arithmetic is a faithful model.  `DataView.setFloat32` is modelled
  by an executable IEEE-754 binary32 encoder (`float32le`).
* An `ArrayBuffer` is a zero-initialised `List Nat` of bytes (JS guarantees
  zero initialisation); `DataView` writes are splices (`writeBytes`).
* Host promises (fetch, the Piper library call, `speechSynthesis`) are
  modelled by explicit outcome parameters of type `Except String _`.
-/

/-! ## Byte-level primitives (DataView writes, little-endian encodings) -/

/-- The bytes of an ASCII string, as written by the `writeString` helpers of
`pcmToWav` and `bufferToWave` (one `setUint8` of `charCodeAt(i)` per char). -/
def strBytes (s : String) : List Nat :=
  s.data.map (fun c => c.toNat)

/-- `n` little-endian bytes of the value `v`. -/
def toBytesLE (n v : Nat) : List Nat :=
  (List.range n).map (fun i => v / 256 ^ i % 256)

/-- `DataView.setUint32(_, v, true)`: four little-endian bytes of `v mod 2^32`. -/
def uint32le (v : Nat) : List Nat := toBytesLE 4 (v % 2 ^ 32)

/-- `DataView.setUint16(_, v, true)`: two little-endian bytes of `v mod 2^16`. -/
def uint16le (v : Nat) : List Nat := toBytesLE 2 (v % 2 ^ 16)

/-- `DataView.setInt16(_, v, true)`: two little-endian bytes of the
two's-complement representation of `v` (low 16 bits). -/
def int16le (v : Int) : List Nat := toBytesLE 2 (v.emod (2 ^ 16)).toNat

/-- The byte stored by `setInt8(_, (v >> (8*k)) & 0xff)` in the 24-bit packing
loop of `bufferToWave` (JS `>>` is an arithmetic shift, i.e. floor division). -/
def setInt8Byte (v : Int) (k : Nat) : Nat :=
  ((v.ediv (256 ^ k)).emod 256).toNat

/-- Splice `bs` into `buf` at offset `off`, as a sequence of `DataView` byte
writes does (all writes in this development are in range). -/
def writeBytes (buf : List Nat) (off : Nat) (bs : List Nat) : List Nat :=
  buf.take off ++ bs ++ buf.drop (off + bs.length)

/-! ## JS numeric primitives -/

/-- JS `x | 0` on a value in int32 range: truncation toward zero. -/
def jsTrunc (q : ℚ) : Int := q.num.tdiv q.den

/-- `Math.max(-1, Math.min(1, s))`. -/
def jsClamp (s : ℚ) : ℚ := max (-1) (min 1 s)

/-! ## IEEE-754 binary32 encoding (model of `DataView.setFloat32`)

`bufferToWave` stores 32-bit samples with `setFloat32`; since the samples come
out of a `Float32Array` they are binary32 values and the store is
bit-preserving.  We model the store by an executable binary32 encoder
(round to nearest, ties to even) applied to the rational sample value. -/

/-- Round a rational to the nearest integer, ties to even. -/
def roundHalfEven (q : ℚ) : Int :=
  let f : Int := ⌊q⌋
  let r : ℚ := q - (f : ℚ)
  if r < 1 / 2 then f
  else if 1 / 2 < r then f + 1
  else if f % 2 = 0 then f else f + 1

/-- `2 ^ z` as a rational, for an integer exponent `z`. -/
def qpow2 (z : Int) : ℚ :=
  if 0 ≤ z then ((2 : ℚ) ^ z.toNat) else 1 / ((2 : ℚ) ^ (-z).toNat)

/-- Binary exponent search, downward: halve until the value is below 2. -/
def expLoopDown : Nat → ℚ → Int → Int × ℚ
  | 0, q, e => (e, q)
  | n + 1, q, e => if 2 ≤ q then expLoopDown n (q / 2) (e + 1) else (e, q)

/-- Binary exponent search, upward: double until the value reaches 1. -/
def expLoopUp : Nat → ℚ → Int → Int × ℚ
  | 0, q, e => (e, q)
  | n + 1, q, e => if q < 1 then expLoopUp n (q * 2) (e - 1) else (e, q)

/-- The binary exponent `e` of a positive rational `a` with
`2 ^ e ≤ a < 2 ^ (e + 1)` (for values in the binary32 range; 400 steps of
fuel cover every representable magnitude). -/
def binExp (a : ℚ) : Int :=
  let (e1, q1) := expLoopDown 400 a 0
  (expLoopUp 400 q1 e1).1

/-- The 32 bits of the IEEE-754 binary32 value nearest to `q`
(round to nearest, ties to even), as an unsigned integer. -/
def float32bits (q : ℚ) : Nat :=
  if q = 0 then 0
  else
    let s : Nat := if q < 0 then 1 else 0
    let a : ℚ := |q|
    let e : Int := binExp a
    if e < -126 then
      -- subnormal range (or rounds up into the smallest normal)
      let m : Int := roundHalfEven (a * qpow2 149)
      s * 2 ^ 31 + m.toNat
    else
      let m : Int := roundHalfEven (a * qpow2 (23 - e))
      let (e2, m2) : Int × Int := if m = 2 ^ 24 then (e + 1, 2 ^ 23) else (e, m)
      if 128 ≤ e2 then s * 2 ^ 31 + 255 * 2 ^ 23
      else s * 2 ^ 31 + (e2 + 127).toNat * 2 ^ 23 + (m2 - 2 ^ 23).toNat

/-- `DataView.setFloat32(_, q, true)`: four little-endian bytes of the
binary32 representation of `q`. -/
def float32le (q : ℚ) : List Nat := toBytesLE 4 (float32bits q)

/-! ## The WAV header (common to both encoders)

Both `PiperEngine.pcmToWav` and `AudioEngine.bufferToWave` write the same
13-field, 44-byte RIFF header; the only difference is the audio-format word
(`1` for integer PCM, `3` for IEEE float).  We model the write sequence as a
fold over the list of `(offset, bytes)` writes appearing in the source. -/

/-- The header writes, in source order, with their byte offsets. -/
def wavHeaderFields (fmt channels sampleRate blockAlign bitDepth dataLength : Nat) :
    List (Nat × List Nat) :=
  [ (0, strBytes "RIFF")
  , (4, uint32le (36 + dataLength))
  , (8, strBytes "WAVE")
  , (12, strBytes "fmt ")
  , (16, uint32le 16)
  , (20, uint16le fmt)
  , (22, uint16le channels)
  , (24, uint32le sampleRate)
  , (28, uint32le (sampleRate * blockAlign))
  , (32, uint16le blockAlign)
  , (34, uint16le bitDepth)
  , (36, strBytes "data")
  , (40, uint32le dataLength) ]

/-- Perform the header writes on a buffer. -/
def writeWavHeader (buf : List Nat) (fmt channels sampleRate blockAlign bitDepth dataLength : Nat) :
    List Nat :=
  (wavHeaderFields fmt channels sampleRate blockAlign bitDepth dataLength).foldl
    (fun b w => writeBytes b w.1 w.2) buf

/-- The 44 header bytes, laid out field by field: `"RIFF"`, chunk size
`36 + dataLength` (LE32, offset 4), `"WAVE"`, `"fmt "`, fmt-chunk size 16
(offset 16), audio format (offset 20), channel count (offset 22), sample rate
(offset 24), byte rate (offset 28), block align (offset 32), bits per sample
(offset 34), `"data"` (offset 36), data length (offset 40). -/
def headerBytes (fmt channels sampleRate blockAlign bitDepth dataLength : Nat) : List Nat :=
  strBytes "RIFF" ++ uint32le (36 + dataLength) ++ strBytes "WAVE" ++ strBytes "fmt " ++
    uint32le 16 ++ uint16le fmt ++ uint16le channels ++ uint32le sampleRate ++
    uint32le (sampleRate * blockAlign) ++ uint16le blockAlign ++ uint16le bitDepth ++
    strBytes "data" ++ uint32le dataLength

/-! ## `PiperEngine.pcmToWav` (src/js/piper-engine.js, lines 419–458)

Writes the 44-byte header from its parameters, then packs every sample as
**16-bit** PCM (two bytes, little-endian), whatever `bitDepth` says. -/

def pcmToWav (pcmData : List ℚ) (sampleRate channels bitDepth : Nat) : List Nat :=
  let bytesPerSample := bitDepth / 8
  let blockAlign := channels * bytesPerSample
  let dataLength := pcmData.length * bytesPerSample
  let buf := List.replicate (44 + dataLength) 0
  let b := writeWavHeader buf 1 channels sampleRate blockAlign bitDepth dataLength
  (pcmData.foldl
    (fun st s =>
      (writeBytes st.1 st.2
        (int16le (jsTrunc (if jsClamp s < 0 then jsClamp s * 32768 else jsClamp s * 32767))),
       st.2 + 2))
    (b, 44)).1

/-! ## `AudioEngine.bufferToWave` (src/js/ui-controller.js, lines 1311–1398) -/

/-- A Web Audio `AudioBuffer`: sample rate, frame count, and one sample list
per channel (each of length `frames`; `getD _ 0` is only a guard for the
out-of-range reads that cannot occur on a well-formed buffer). -/
structure AudioBufferModel where
  sampleRate : Nat
  frames : Nat
  chans : List (List ℚ)

/-- The channel-interleaving loop of `bufferToWave`: frame by frame, one
sample from each channel. -/
def interleave (ab : AudioBufferModel) : List ℚ :=
  (List.range ab.frames).flatMap (fun i => ab.chans.map (fun c => c.getD i 0))

def bufferToWave (ab : AudioBufferModel) (bitDepth0 : Nat) : List Nat :=
  let numberOfChannels := ab.chans.length
  let fmt := if bitDepth0 = 32 then 3 else 1
  -- invalid bit depths are coerced to 16 before any size computation
  let bitDepth := if bitDepth0 = 16 ∨ bitDepth0 = 24 ∨ bitDepth0 = 32 then bitDepth0 else 16
  let bytesPerSample := bitDepth / 8
  let blockAlign := numberOfChannels * bytesPerSample
  let data := interleave ab
  let dataLength := data.length * bytesPerSample
  let buf := List.replicate (44 + dataLength) 0
  let b := writeWavHeader buf fmt numberOfChannels ab.sampleRate blockAlign bitDepth dataLength
  if bitDepth = 16 then
    (data.foldl
      (fun st s =>
        (writeBytes st.1 st.2
          (int16le (jsTrunc (if jsClamp s < 0 then jsClamp s * 32768 else jsClamp s * 32767))),
         st.2 + 2))
      (b, 44)).1
  else if bitDepth = 24 then
    (data.foldl
      (fun st s =>
        (writeBytes st.1 st.2
          [ setInt8Byte (jsTrunc (if jsClamp s < 0 then jsClamp s * 8388608 else jsClamp s * 8388607)) 0
          , setInt8Byte (jsTrunc (if jsClamp s < 0 then jsClamp s * 8388608 else jsClamp s * 8388607)) 1
          , setInt8Byte (jsTrunc (if jsClamp s < 0 then jsClamp s * 8388608 else jsClamp s * 8388607)) 2 ],
         st.2 + 3))
      (b, 44)).1
  else
    (data.foldl
      (fun st s => (writeBytes st.1 st.2 (float32le s), st.2 + 4))
      (b, 44)).1

/-- Per-sample packing, as `bufferToWave` performs it (and as claim C2
describes it): clamp to `[-1, 1]`, scale by `2^(bitDepth-1)` (negative) or
`2^(bitDepth-1) - 1` (non-negative), truncate toward zero, write little-endian
two's complement — except at 32 bits, where the sample is written as a
little-endian IEEE-754 float. -/
def packSample (bitDepth : Nat) (s : ℚ) : List Nat :=
  if bitDepth = 16 then
    int16le (jsTrunc (if jsClamp s < 0 then jsClamp s * 32768 else jsClamp s * 32767))
  else if bitDepth = 24 then
    [ setInt8Byte (jsTrunc (if jsClamp s < 0 then jsClamp s * 8388608 else jsClamp s * 8388607)) 0
    , setInt8Byte (jsTrunc (if jsClamp s < 0 then jsClamp s * 8388608 else jsClamp s * 8388607)) 1
    , setInt8Byte (jsTrunc (if jsClamp s < 0 then jsClamp s * 8388608 else jsClamp s * 8388607)) 2 ]
  else if bitDepth = 32 then float32le s
  else []

/-! ## Structure of the encoder output -/

theorem toBytesLE_length (n v : Nat) : (toBytesLE n v).length = n := by
  simp [toBytesLE]

/-- A write at the seam of `pre ++ rest` splices unconditionally. -/
theorem writeBytes_seam (pre rest bs : List Nat) :
    writeBytes (pre ++ rest) pre.length bs = pre ++ bs ++ rest.drop bs.length := by
  unfold writeBytes
  rw [List.take_left pre rest, List.drop_append]

/-- Write lists whose offsets tile the buffer contiguously from position `k`. -/
def contigFrom : Nat → List (Nat × List Nat) → Prop
  | _, [] => True
  | k, w :: ws => w.1 = k ∧ contigFrom (k + w.2.length) ws

theorem foldl_contig (ws : List (Nat × List Nat)) :
    ∀ pre rest : List Nat, contigFrom pre.length ws →
      ws.foldl (fun b w => writeBytes b w.1 w.2) (pre ++ rest)
        = pre ++ ws.flatMap (fun w => w.2) ++ rest.drop ((ws.map (fun w => w.2.length)).sum) := by
  induction ws with
  | nil => intro pre rest _; simp
  | cons w ws ih =>
    intro pre rest hc
    obtain ⟨hoff, hrest⟩ := hc
    simp only [List.foldl_cons]
    rw [hoff, writeBytes_seam]
    have hlen : (pre ++ w.2).length = pre.length + w.2.length := List.length_append pre w.2
    have := ih (pre ++ w.2) (rest.drop w.2.length) (by rw [hlen]; exact hrest)
    rw [List.append_assoc] at this ⊢
    rw [this]
    simp only [List.flatMap_cons, List.map_cons, List.sum_cons, List.drop_drop,
      List.append_assoc]

theorem wavHeaderFields_contig (fmt c sr ba bd D : Nat) :
    contigFrom 0 (wavHeaderFields fmt c sr ba bd D) := by
  simp [contigFrom, wavHeaderFields, strBytes, uint16le, uint32le, toBytesLE]

theorem wavHeaderFields_flat (fmt c sr ba bd D : Nat) :
    (wavHeaderFields fmt c sr ba bd D).flatMap (fun w => w.2) = headerBytes fmt c sr ba bd D := by
  simp [wavHeaderFields, headerBytes]

theorem wavHeaderFields_sum (fmt c sr ba bd D : Nat) :
    ((wavHeaderFields fmt c sr ba bd D).map (fun w => w.2.length)).sum = 44 := by
  simp [wavHeaderFields, strBytes, uint16le, uint32le, toBytesLE]

/-- The header writes overwrite exactly the first 44 bytes of any buffer. -/
theorem writeWavHeader_eq (buf : List Nat) (fmt c sr ba bd D : Nat) :
    writeWavHeader buf fmt c sr ba bd D = headerBytes fmt c sr ba bd D ++ buf.drop 44 := by
  unfold writeWavHeader
  have h := foldl_contig (wavHeaderFields fmt c sr ba bd D) [] buf
    (wavHeaderFields_contig fmt c sr ba bd D)
  simp only [List.nil_append, List.length_nil] at h
  rw [h, wavHeaderFields_flat, wavHeaderFields_sum]

theorem headerBytes_length (fmt c sr ba bd D : Nat) :
    (headerBytes fmt c sr ba bd D).length = 44 := by
  simp [headerBytes, strBytes, uint16le, uint32le, toBytesLE]

theorem foldl_writeSamples (pack : ℚ → List Nat) (n : Nat) (hn : ∀ s, (pack s).length = n)
    (data : List ℚ) :
    ∀ pre rest : List Nat,
      (data.foldl (fun st s => (writeBytes st.1 st.2 (pack s), st.2 + n)) (pre ++ rest, pre.length)).1
        = pre ++ data.flatMap pack ++ rest.drop (n * data.length) := by
  induction data with
  | nil => intro pre rest; simp
  | cons s tail ih =>
    intro pre rest
    simp only [List.foldl_cons]
    have hw : writeBytes (pre ++ rest) pre.length (pack s) = (pre ++ pack s) ++ rest.drop n := by
      rw [writeBytes_seam, hn s, List.append_assoc]
    have hoff : pre.length + n = (pre ++ pack s).length := by
      simp [hn s]
    rw [hw, hoff, ih (pre ++ pack s) (rest.drop n)]
    simp only [List.flatMap_cons, List.drop_drop, List.append_assoc]
    have h2 : n + n * tail.length = n * (s :: tail).length := by
      simp only [List.length_cons]
      ring
    rw [h2]

theorem packSample_sixteen :
    (fun (st : List Nat × Nat) (s : ℚ) =>
        (writeBytes st.1 st.2
          (int16le (jsTrunc (if jsClamp s < 0 then jsClamp s * 32768 else jsClamp s * 32767))),
         st.2 + 2))
      = fun (st : List Nat × Nat) (s : ℚ) => (writeBytes st.1 st.2 (packSample 16 s), st.2 + 2) := by
  funext st s
  simp [packSample]

/-- `pcmToWav` decomposed: the 44 header bytes, then every sample packed as
16-bit PCM, then (when the declared bit depth is wider than 16) untouched
zero fill up to the declared data length. -/
theorem pcmToWav_eq (pcm : List ℚ) (sr ch bd : Nat) :
    pcmToWav pcm sr ch bd =
      headerBytes 1 ch sr (ch * (bd / 8)) bd (pcm.length * (bd / 8))
        ++ pcm.flatMap (packSample 16)
        ++ List.replicate (pcm.length * (bd / 8) - 2 * pcm.length) 0 := by
  simp only [pcmToWav, packSample_sixteen]
  rw [writeWavHeader_eq]
  have h44 : (44 : Nat) = (headerBytes 1 ch sr (ch * (bd / 8)) bd (pcm.length * (bd / 8))).length :=
    (headerBytes_length _ _ _ _ _ _).symm
  conv_lhs => rw [h44]
  rw [foldl_writeSamples (packSample 16) 2
    (fun s => by simp [packSample, int16le, toBytesLE]) pcm _ _]
  rw [List.drop_replicate, List.drop_replicate]
  congr 2
  omega

theorem interleave_length (ab : AudioBufferModel) :
    (interleave ab).length = ab.frames * ab.chans.length := by
  unfold interleave
  rw [List.length_flatMap]
  simp [Function.comp_def]

/-- Folding a fixed-width packer over the data region `[44, 44 + n·|data|)`
of a buffer `H ++ 0^D` with `|H| = 44` and `D = n·|data|` fills it exactly. -/
theorem encodeBody (pack : ℚ → List Nat) (n : Nat) (hn : ∀ s, (pack s).length = n)
    (H : List Nat) (hH : H.length = 44) (data : List ℚ) (D : Nat) (hD : D = n * data.length) :
    (data.foldl (fun st s => (writeBytes st.1 st.2 (pack s), st.2 + n)) (H ++ List.replicate D 0, 44)).1
      = H ++ data.flatMap pack := by
  rw [show (44 : Nat) = H.length from hH.symm,
    foldl_writeSamples pack n hn data H (List.replicate D 0), List.drop_replicate,
    hD, Nat.sub_self]
  simp

theorem bufferToWave_eq16 (ab : AudioBufferModel) :
    bufferToWave ab 16 =
      headerBytes 1 ab.chans.length ab.sampleRate (ab.chans.length * 2) 16
          ((interleave ab).length * 2)
        ++ (interleave ab).flatMap (packSample 16) := by
  simp only [bufferToWave, packSample_sixteen]
  norm_num
  rw [writeWavHeader_eq]
  simp only [List.drop_replicate, Nat.add_sub_cancel_left]
  exact encodeBody (packSample 16) 2 (fun s => by simp [packSample, int16le, toBytesLE]) _
    (headerBytes_length _ _ _ _ _ _) _ _ (Nat.mul_comm _ _)

theorem bufferToWave_eq24 (ab : AudioBufferModel) :
    bufferToWave ab 24 =
      headerBytes 1 ab.chans.length ab.sampleRate (ab.chans.length * 3) 24
          ((interleave ab).length * 3)
        ++ (interleave ab).flatMap (packSample 24) := by
  have hfun :
      (fun (st : List Nat × Nat) (s : ℚ) =>
        (writeBytes st.1 st.2
          [ setInt8Byte (jsTrunc (if jsClamp s < 0 then jsClamp s * 8388608 else jsClamp s * 8388607)) 0
          , setInt8Byte (jsTrunc (if jsClamp s < 0 then jsClamp s * 8388608 else jsClamp s * 8388607)) 1
          , setInt8Byte (jsTrunc (if jsClamp s < 0 then jsClamp s * 8388608 else jsClamp s * 8388607)) 2 ],
         st.2 + 3))
        = fun (st : List Nat × Nat) (s : ℚ) => (writeBytes st.1 st.2 (packSample 24 s), st.2 + 3) := by
    funext st s
    simp [packSample]
  simp only [bufferToWave, hfun]
  norm_num
  rw [writeWavHeader_eq]
  simp only [List.drop_replicate, Nat.add_sub_cancel_left]
  exact encodeBody (packSample 24) 3 (fun s => by simp [packSample]) _
    (headerBytes_length _ _ _ _ _ _) _ _ (Nat.mul_comm _ _)

theorem bufferToWave_eq32 (ab : AudioBufferModel) :
    bufferToWave ab 32 =
      headerBytes 3 ab.chans.length ab.sampleRate (ab.chans.length * 4) 32
          ((interleave ab).length * 4)
        ++ (interleave ab).flatMap (packSample 32) := by
  have hfun :
      (fun (st : List Nat × Nat) (s : ℚ) => (writeBytes st.1 st.2 (float32le s), st.2 + 4))
        = fun (st : List Nat × Nat) (s : ℚ) => (writeBytes st.1 st.2 (packSample 32 s), st.2 + 4) := by
    funext st s
    simp [packSample]
  simp only [bufferToWave, hfun]
  norm_num
  rw [writeWavHeader_eq]
  simp only [List.drop_replicate, Nat.add_sub_cancel_left]
  exact encodeBody (packSample 32) 4 (fun s => by simp [packSample, float32le, toBytesLE]) _
    (headerBytes_length _ _ _ _ _ _) _ _ (Nat.mul_comm _ _)

theorem flatMap_length_const (pack : ℚ → List Nat) (n : Nat) (hn : ∀ s, (pack s).length = n)
    (data : List ℚ) : (data.flatMap pack).length = n * data.length := by
  induction data with
  | nil => simp
  | cons s tail ih =>
    simp only [List.flatMap_cons, List.length_append, List.length_cons, ih, hn s]
    ring

theorem packSample_length (bd : Nat) (hbd : bd = 16 ∨ bd = 24 ∨ bd = 32) (s : ℚ) :
    (packSample bd s).length = bd / 8 := by
  rcases hbd with h | h | h <;> subst h <;>
    simp [packSample, int16le, float32le, toBytesLE]

/-- **C1.**  For every PCM sample list, sample rate, channel count and
(supported) bit depth, both WAV encoders produce a buffer of exactly
`44 + dataLength` bytes whose first 44 bytes are the fixed RIFF header
described by `headerBytes`: `"RIFF"`, the little-endian value
`36 + dataLength` at offset 4, `"WAVE"`, `"fmt "`, fmt-chunk size 16, the
channel count at offset 22, the sample rate at offset 24, byte rate
`sampleRate · channels · bitDepth/8` at offset 28, block align
`channels · bitDepth/8` at offset 32, bits-per-sample at offset 34, `"data"`
at offset 36 and `dataLength = samples · bitDepth/8` at offset 40 (for
`bufferToWave` the sample count is `frames · channels` and the audio-format
word is 3 instead of 1 at 32-bit). -/
theorem C1_wav_fixed_header (pcm : List ℚ) (sr ch bd : Nat) (ab : AudioBufferModel)
    (hbd : bd = 16 ∨ bd = 24 ∨ bd = 32) :
    (pcmToWav pcm sr ch bd).length = 44 + pcm.length * (bd / 8)
    ∧ (pcmToWav pcm sr ch bd).take 44
        = headerBytes 1 ch sr (ch * (bd / 8)) bd (pcm.length * (bd / 8))
    ∧ (bufferToWave ab bd).length = 44 + (ab.frames * ab.chans.length) * (bd / 8)
    ∧ (bufferToWave ab bd).take 44
        = headerBytes (if bd = 32 then 3 else 1) ab.chans.length ab.sampleRate
            (ab.chans.length * (bd / 8)) bd ((ab.frames * ab.chans.length) * (bd / 8)) := by
  have h16 : ∀ s, (packSample 16 s).length = 2 := fun s => by
    simp [packSample, int16le, toBytesLE]
  refine ⟨?_, ?_, ?_, ?_⟩
  · rw [pcmToWav_eq pcm sr ch bd]
    simp only [List.length_append, headerBytes_length, List.length_replicate,
      flatMap_length_const (packSample 16) 2 h16]
    rcases hbd with h | h | h <;> subst h <;> omega
  · rw [pcmToWav_eq pcm sr ch bd, List.append_assoc]
    exact List.take_left' (headerBytes_length _ _ _ _ _ _)
  · rcases hbd with h | h | h <;> subst h
    · rw [bufferToWave_eq16 ab]
      simp only [List.length_append, headerBytes_length,
        flatMap_length_const (packSample 16) 2 h16, interleave_length]
      norm_num
      ring
    · rw [bufferToWave_eq24 ab]
      have h24 : ∀ s, (packSample 24 s).length = 3 := fun s => by simp [packSample]
      simp only [List.length_append, headerBytes_length,
        flatMap_length_const (packSample 24) 3 h24, interleave_length]
      norm_num
      ring
    · rw [bufferToWave_eq32 ab]
      have h32 : ∀ s, (packSample 32 s).length = 4 := fun s => by
        simp [packSample, float32le, toBytesLE]
      simp only [List.length_append, headerBytes_length,
        flatMap_length_const (packSample 32) 4 h32, interleave_length]
      norm_num
      ring
  · rcases hbd with h | h | h <;> subst h
    · rw [bufferToWave_eq16 ab]
      rw [List.take_left'
        (headerBytes_length 1 ab.chans.length ab.sampleRate (ab.chans.length * 2) 16
          ((interleave ab).length * 2)), interleave_length]
      norm_num
    · rw [bufferToWave_eq24 ab]
      rw [List.take_left'
        (headerBytes_length 1 ab.chans.length ab.sampleRate (ab.chans.length * 3) 24
          ((interleave ab).length * 3)), interleave_length]
      norm_num
    · rw [bufferToWave_eq32 ab]
      rw [List.take_left'
        (headerBytes_length 3 ab.chans.length ab.sampleRate (ab.chans.length * 4) 32
          ((interleave ab).length * 4)), interleave_length]
      norm_num

theorem C1_wav_fixed_header_witness :
    ((16 : Nat) = 16 ∨ (16 : Nat) = 24 ∨ (16 : Nat) = 32)
    ∧ ((pcmToWav [1/2] 8 1 16).length = 44 + [(1/2 : ℚ)].length * (16 / 8)
      ∧ (pcmToWav [1/2] 8 1 16).take 44
          = headerBytes 1 1 8 (1 * (16 / 8)) 16 ([(1/2 : ℚ)].length * (16 / 8))
      ∧ (bufferToWave (AudioBufferModel.mk 8 1 [[1/2]]) 16).length
          = 44 + ((AudioBufferModel.mk 8 1 [[(1/2 : ℚ)]]).frames
              * (AudioBufferModel.mk 8 1 [[(1/2 : ℚ)]]).chans.length) * (16 / 8)
      ∧ (bufferToWave (AudioBufferModel.mk 8 1 [[1/2]]) 16).take 44
          = headerBytes (if (16 : Nat) = 32 then 3 else 1)
              (AudioBufferModel.mk 8 1 [[(1/2 : ℚ)]]).chans.length
              (AudioBufferModel.mk 8 1 [[(1/2 : ℚ)]]).sampleRate
              ((AudioBufferModel.mk 8 1 [[(1/2 : ℚ)]]).chans.length * (16 / 8)) 16
              (((AudioBufferModel.mk 8 1 [[(1/2 : ℚ)]]).frames
                  * (AudioBufferModel.mk 8 1 [[(1/2 : ℚ)]]).chans.length) * (16 / 8))) :=
  ⟨Or.inl rfl, C1_wav_fixed_header [1/2] 8 1 16 (AudioBufferModel.mk 8 1 [[1/2]]) (Or.inl rfl)⟩

set_option maxRecDepth 10000

section RatEval

attribute [local semireducible] Rat.mul Rat.add Rat.sub Rat.inv

/-- **C2, counterexample.**  The claim says *both* encoders pack each sample
into `bitDepth/8` bytes following the 16/24-bit integer or 32-bit float
scheme.  `pcmToWav`, however, always packs 16-bit samples: at the explicit
input `pcmData = [1.0]`, `bitDepth = 32`, its data section is
`[255, 127, 0, 0]` (a 16-bit `0x7FFF` plus zero fill) and not the IEEE-754
bytes `[0, 0, 128, 63]` of `1.0` that the claimed packing produces. -/
theorem C2_counterexample :
    (pcmToWav [1] 22050 1 32).drop 44 ≠ [(1 : ℚ)].flatMap (packSample 32) := by
  decide

end RatEval

/-- **C2, amended.**  For every requested bit depth in {16, 24, 32}:
`bufferToWave` packs each interleaved sample into exactly `bitDepth/8` bytes
exactly as the claim describes (16/24-bit: clamp, scale by `2^(bitDepth-1)`
or `2^(bitDepth-1) - 1`, truncate toward zero, little-endian signed;
32-bit: little-endian IEEE-754 float), completely filling the data section;
`pcmToWav` instead always packs every sample as 16-bit (2 bytes), so its data
section consists of the 16-bit packing followed by zero fill, and matches the
header's declared sample width only at `bitDepth = 16`. -/
theorem C2_sample_packing (ab : AudioBufferModel) (pcm : List ℚ) (sr ch bd : Nat)
    (hbd : bd = 16 ∨ bd = 24 ∨ bd = 32) :
    (bufferToWave ab bd).drop 44 = (interleave ab).flatMap (packSample bd)
    ∧ (∀ s, (packSample bd s).length = bd / 8)
    ∧ (pcmToWav pcm sr ch bd).drop 44
        = pcm.flatMap (packSample 16)
          ++ List.replicate (pcm.length * (bd / 8) - 2 * pcm.length) 0 := by
  refine ⟨?_, packSample_length bd hbd, ?_⟩
  · rcases hbd with h | h | h <;> subst h
    · rw [bufferToWave_eq16 ab]
      exact List.drop_left' (headerBytes_length _ _ _ _ _ _)
    · rw [bufferToWave_eq24 ab]
      exact List.drop_left' (headerBytes_length _ _ _ _ _ _)
    · rw [bufferToWave_eq32 ab]
      exact List.drop_left' (headerBytes_length _ _ _ _ _ _)
  · rw [pcmToWav_eq pcm sr ch bd, List.append_assoc]
    exact List.drop_left' (headerBytes_length _ _ _ _ _ _)

theorem C2_sample_packing_witness :
    ((24 : Nat) = 16 ∨ (24 : Nat) = 24 ∨ (24 : Nat) = 32)
    ∧ ((bufferToWave (AudioBufferModel.mk 8 1 [[3/4]]) 24).drop 44
          = (interleave (AudioBufferModel.mk 8 1 [[(3/4 : ℚ)]])).flatMap (packSample 24)
      ∧ (∀ s, (packSample 24 s).length = 24 / 8)
      ∧ (pcmToWav [3/4] 8 1 24).drop 44
          = [(3/4 : ℚ)].flatMap (packSample 16)
            ++ List.replicate ([(3/4 : ℚ)].length * (24 / 8) - 2 * [(3/4 : ℚ)].length) 0) :=
  ⟨Or.inr (Or.inl rfl),
    C2_sample_packing (AudioBufferModel.mk 8 1 [[3/4]]) [3/4] 8 1 24 (Or.inr (Or.inl rfl))⟩

/-! ## `PiperEngine` state and voice-model loading
(src/js/piper-engine.js, lines 207–267 and 273–397)

Host effects are explicit parameters: a `FetchEnv` carries the outcomes of the
two `fetch` calls of `loadVoiceModel`, and a `PiperModel` carries the shape
and outcomes of the loaded Piper library instance's synthesis methods. -/

/-- An entry of `this.voices` as built by `loadAvailableVoices`. -/
structure Voice where
  id : String
  name : String
  modelPath : String
deriving DecidableEq

/-- `this.currentModelData`: the cached model + parsed config for one voice. -/
structure ModelCache where
  voiceId : String
  modelData : List Nat
  configData : String
deriving DecidableEq

/-- The mutable fields of a `PiperEngine` that `loadVoiceModel` and
`synthesizeToSpeech` read or write. -/
structure PEState where
  piperPresent : Bool
  voices : List Voice
  selectedVoice : Option String
  currentModelData : Option ModelCache
  isInitialized : Bool
deriving DecidableEq

/-- Decidable equality for `Except` (needed for `decide`-based witnesses). -/
instance {ε α : Type} [DecidableEq ε] [DecidableEq α] : DecidableEq (Except ε α) := fun a b =>
  match a, b with
  | .ok x, .ok y =>
    if h : x = y then .isTrue (by rw [h]) else .isFalse (fun hh => h (Except.ok.inj hh))
  | .error x, .error y =>
    if h : x = y then .isTrue (by rw [h]) else .isFalse (fun hh => h (Except.error.inj hh))
  | .ok _, .error _ => .isFalse (fun hh => Except.noConfusion hh)
  | .error _, .ok _ => .isFalse (fun hh => Except.noConfusion hh)

/-- Outcomes of the `fetch(modelPath)` / `fetch(configPath)` pair:
`response.ok` flags, the statuses used in error messages, the model bytes and
the result of `configResponse.json()` (parsed config, modelled abstractly as a
string; a parse rejection is an `error`). -/
structure FetchEnv where
  modelOk : Bool
  configOk : Bool
  modelStatus : Nat
  configStatus : Nat
  modelData : List Nat
  configJson : Except String String
deriving DecidableEq

/-- Result of a `loadVoiceModel` call: the returned voice (or the thrown
error), the engine state afterwards, and the list of URLs fetched. -/
structure LoadOut where
  result : Except String Voice
  state : PEState
  fetched : List String
deriving DecidableEq

/-- `PiperEngine.loadVoiceModel` (piper-engine.js 207–267).  The early-return
paths (`piper` missing, cache hit) fetch nothing; otherwise both the model
and its `.onnx.json` config are fetched together, every failure throws
without touching the state, and only full success updates `selectedVoice`
and `currentModelData`.  (The `getD ⟨voiceId, "", ""⟩` on the cache-hit path
models the JS fallback object `{ id: voiceId }` with absent fields.) -/
def loadVoiceModel (st : PEState) (voiceId : String) (env : FetchEnv) : LoadOut :=
  if ¬ st.piperPresent then
    ⟨.error "Piper not initialized. Call initialize() first.", st, []⟩
  else if st.currentModelData.any (fun m => m.voiceId = voiceId) then
    ⟨.ok ((st.voices.find? (fun v => v.id = voiceId)).getD ⟨voiceId, "", ""⟩), st, []⟩
  else
    match st.voices.find? (fun v => v.id = voiceId) with
    | none => ⟨.error ("Voice not found: " ++ voiceId), st, []⟩
    | some voice =>
      let modelPath := voice.modelPath
      let configPath := modelPath ++ ".json"
      let fetched := [modelPath, configPath]
      if ¬ env.modelOk then
        ⟨.error ("Failed to fetch model file: " ++ modelPath ++ " ("
          ++ toString env.modelStatus ++ ")"), st, fetched⟩
      else if ¬ env.configOk then
        ⟨.error ("Failed to fetch config file: " ++ configPath ++ " ("
          ++ toString env.configStatus ++ ") - JSON config is required!"), st, fetched⟩
      else
        match env.configJson with
        | .error e => ⟨.error e, st, fetched⟩
        | .ok cfg =>
          ⟨.ok voice,
           { st with selectedVoice := some voiceId,
                     currentModelData := some ⟨voiceId, env.modelData, cfg⟩ },
           fetched⟩

/-! ## `PiperEngine.synthesizeToSpeech` -/

/-- JS falsy-or on an optional whole number (`x || d`; `0` is falsy). -/
def jsOrNat (x : Option Nat) (d : Nat) : Nat :=
  match x with
  | some v => if v = 0 then d else v
  | none => d

/-- JS falsy-or on an optional string against an optional default
(`options.voiceId || this.selectedVoice`; `""` is falsy). -/
def jsOrOptStr (x : Option String) (d : Option String) : Option String :=
  match x with
  | some s => if s = "" then d else some s
  | none => d

/-- JS `String.prototype.trim`: strip leading and trailing whitespace. -/
def jsTrim (s : String) : String :=
  String.mk (((s.data.dropWhile Char.isWhitespace).reverse.dropWhile Char.isWhitespace).reverse)

/-- JS `!text || text.trim().length === 0` on a possibly-absent string
(`none` models `null`/`undefined`). -/
def textEmpty (t : Option String) : Bool :=
  match t with
  | none => true
  | some s => s.data.isEmpty || (jsTrim s).data.isEmpty

/-- Audio payload used after the method-dispatch block:
`result.audio` and `result.sampleRate`. -/
structure PiperRaw where
  audio : List ℚ
  sampleRate : Option Nat
deriving DecidableEq

/-- The possible shapes of a `piper.generate()` return value that the
normalisation block distinguishes. -/
inductive GenRet where
  | audioObj (audio : List ℚ) (sampleRate : Option Nat)
  | floatArr (audio : List ℚ)
  | bufferObj (audio : List ℚ)
  | rawObj (audio : List ℚ) (sampleRate : Option Nat)
  | unknownShape
deriving DecidableEq

/-- Shape and call outcomes of the loaded Piper library instance.  A field is
`none` when `typeof this.piper.<method> !== "function"`; otherwise it carries
the outcome of calling that method. -/
structure PiperModel where
  generate : Option (Except String GenRet)
  synthesizeFn : Option (Except String PiperRaw)
  synthesizeToSpeechFn : Option (Except String PiperRaw)
  hasSettings : Bool
  settingsResult : Except String PiperRaw
deriving DecidableEq

/-- The `genResult` normalisation of the `generate` branch. -/
def normalizeGen : GenRet → Except String PiperRaw
  | .audioObj a sr => .ok ⟨a, some (jsOrNat sr 22050)⟩
  | .floatArr a => .ok ⟨a, some 22050⟩
  | .bufferObj a => .ok ⟨a, some 22050⟩
  | .rawObj a sr => .ok ⟨a, some (jsOrNat sr 22050)⟩
  | .unknownShape => .error "Unknown Piper generate() result format"

/-- The method-dispatch block of `synthesizeToSpeech` (piper-engine.js
305–359): try `generate`, else `synthesize`, else `synthesizeToSpeech`, else
the `Settings` path, else throw. -/
def tryMethods (p : PiperModel) : Except String PiperRaw :=
  match p.generate with
  | some out =>
    match out with
    | .error e => .error e
    | .ok g => normalizeGen g
  | none =>
    match p.synthesizeFn with
    | some out => out
    | none =>
      match p.synthesizeToSpeechFn with
      | some out => out
      | none =>
        if p.hasSettings then p.settingsResult
        else .error "Cannot find synthesis method on Piper instance"

/-- The object returned by `PiperEngine.synthesizeToSpeech` (the
`audioBuffer` field is the Web Audio object and is not modelled; its
`duration` is `pcm.length / 22050` since `pcmToAudioBuffer` always builds a
22050 Hz buffer). -/
structure PiperSynthOut where
  success : Bool
  pcm : List ℚ
  sampleRate : Nat
  duration : ℚ
  text : String
  voiceId : String
deriving DecidableEq

/-- `options` of the synthesis entry points. -/
structure SynthOptions where
  voiceId : Option String
  lengthScale : Option ℚ
deriving DecidableEq

/-- `PiperEngine.synthesizeToSpeech` (piper-engine.js 273–397).  Guards, then
`loadVoiceModel` when the requested voice differs from the selected one, then
the method-dispatch block; when that block throws, the catch substitutes one
second of silence (`new Float32Array(22050)`, sample rate 22050) and the call
still succeeds. -/
def PiperEngine.synthesizeToSpeech (st : PEState) (p : PiperModel) (text : Option String)
    (opts : SynthOptions) (env : FetchEnv) : Except String PiperSynthOut × PEState :=
  if ¬ st.isInitialized then (.error "Piper not initialized. Call initialize() first.", st)
  else if textEmpty text then (.error "Text cannot be empty", st)
  else
    match jsOrOptStr opts.voiceId st.selectedVoice with
    | none => (.error "No voice selected", st)
    | some voiceId =>
      if voiceId = "" then (.error "No voice selected", st)
      else
        let loadStep : Except String PEState :=
          if st.selectedVoice ≠ some voiceId then
            match loadVoiceModel st voiceId env with
            | ⟨.error e, _, _⟩ => .error e
            | ⟨.ok _, st1, _⟩ => .ok st1
          else .ok st
        match loadStep with
        | .error e => (.error e, st)
        | .ok st1 =>
          let r : PiperRaw :=
            match tryMethods p with
            | .ok r => r
            | .error _ => ⟨List.replicate 22050 0, some 22050⟩
          (.ok { success := true
               , pcm := r.audio
               , sampleRate := jsOrNat r.sampleRate 22050
               , duration := (r.audio.length : ℚ) / 22050
               , text := text.getD ""
               , voiceId := voiceId }, st1)

/-! ## `AudioEngine`, `VoiceForgeEngine`, `PiperIntegration`
(src/js/ui-controller.js AudioEngine part, src/js/voiceforge-engine.js,
src/js/piper-integration.js) -/

/-- A synthesis result object as the UI layers consume it (the Piper branch
of `VoiceForgeEngine.synthesizeToSpeech` fills every field; the `rawAudio`
Web-Audio object is not modelled). -/
structure VFOut where
  success : Bool
  blob : List Nat
  duration : ℚ
  text : String
  voiceId : String
  isPiper : Bool
deriving DecidableEq

/-- `AudioEngine.synthesizeWithFallback` (ui-controller.js 954–972): plays a
preview with system TTS and then always rejects — system voices cannot be
exported; the message depends on whether the preview itself succeeded. -/
def synthesizeWithFallback (previewOutcome : Except String Unit) : Except String VFOut :=
  match previewOutcome with
  | .ok _ => .error "System voices cannot be exported to file. Please wait for the Neural Engine to initialize or check your connection."
  | .error _ => .error "Speech synthesis failed and export is not supported for system voices."

/-- `AudioEngine.synthesizeToSpeech` (ui-controller.js 790–807): support
guard, text guard, then `synthesizeWithFallback`. -/
def AudioEngine.synthesizeToSpeech (supported : Bool) (text : Option String)
    (previewOutcome : Except String Unit) : Except String VFOut :=
  if ¬ supported then .error "Speech synthesis is not available in this browser/device."
  else if textEmpty text then .error "Text cannot be empty"
  else synthesizeWithFallback previewOutcome

/-- The mutable fields of a `VoiceForgeEngine` plus the browser's speech
support flag read by its audio engine. -/
structure VFState where
  usePiper : Bool
  piperReady : Bool
  pe : PEState
  speechSupported : Bool
deriving DecidableEq

/-- The host outcomes a `VoiceForgeEngine.synthesizeToSpeech` call can
consume: the Piper library instance, the fetch outcomes inside
`loadVoiceModel`, and the preview outcome of the Web Speech fallback. -/
structure SynthEnv where
  p : PiperModel
  fetch : FetchEnv
  previewOutcome : Except String Unit
deriving DecidableEq

/-- `VoiceForgeEngine.synthesizeToSpeech` (voiceforge-engine.js 56–89).
When Piper is ready and enabled it is tried first; on success the PCM is
wrapped as a WAV blob via `pcmToWav` (default arguments 22050 Hz, 1 channel,
16-bit); on failure `usePiper` is set to `false` and control falls through to
the Web Speech branch, whose result is returned as-is. -/
def VoiceForgeEngine.synthesizeToSpeech (st : VFState) (text : Option String)
    (opts : SynthOptions) (env : SynthEnv) : Except String VFOut × VFState :=
  if textEmpty text then (.error "Text cannot be empty", st)
  else if st.piperReady && st.usePiper then
    match PiperEngine.synthesizeToSpeech st.pe env.p text opts env.fetch with
    | (.ok r, pe1) =>
      (.ok { success := true
           , blob := pcmToWav r.pcm 22050 1 16
           , duration := r.duration
           , text := text.getD ""
           , voiceId := r.voiceId
           , isPiper := true }, { st with pe := pe1 })
    | (.error _, pe1) =>
      (AudioEngine.synthesizeToSpeech st.speechSupported text env.previewOutcome,
       { st with pe := pe1, usePiper := false })
  else
    (AudioEngine.synthesizeToSpeech st.speechSupported text env.previewOutcome, st)

/-- `PiperIntegration.generateSpeech` (piper-integration.js 43–79).
`readyAfterWait` models whether the 25 × 200 ms `forcePiper` waiting loop
observes `piperReady` become true. -/
def PiperIntegration.generateSpeech (initialized : Bool) (st : VFState) (text : Option String)
    (forcePiper : Bool) (readyAfterWait : Bool) (opts : SynthOptions) (env : SynthEnv) :
    Except String VFOut × VFState :=
  if ¬ initialized then (.error "TTS Engine not initialized. Call initialize() first.", st)
  else if textEmpty text then (.error "Text cannot be empty", st)
  else if forcePiper then
    if ¬ (st.piperReady || readyAfterWait) then
      (.error "Piper TTS engine failed to initialize",
       { st with piperReady := st.piperReady || readyAfterWait })
    else
      VoiceForgeEngine.synthesizeToSpeech
        { st with piperReady := true, usePiper := true } text opts env
  else
    VoiceForgeEngine.synthesizeToSpeech st text opts env

/-! ## Claims C3–C6 -/

/-- **C6, counterexample.**  The claim says `loadVoiceModel` always fetches
the model and config and throws when the voice is not in the discovered
list.  On a cache hit (`currentModelData.voiceId === voiceId`) it does
neither: with an empty `voices` list and `"X"` cached, loading `"X"`
succeeds without fetching anything. -/
theorem C6_counterexample :
    ((PEState.mk true [] (some "B") (some ⟨"X", [], "cfg"⟩) true).voices.find?
        (fun v => v.id = "X")) = none
    ∧ (loadVoiceModel (PEState.mk true [] (some "B") (some ⟨"X", [], "cfg"⟩) true) "X"
        ⟨false, false, 404, 404, [], .error "nope"⟩).result.isOk = true
    ∧ (loadVoiceModel (PEState.mk true [] (some "B") (some ⟨"X", [], "cfg"⟩) true) "X"
        ⟨false, false, 404, 404, [], .error "nope"⟩).fetched = [] := by
  decide

/-- **C6, amended.**  For a `PiperEngine` whose library is loaded and whose
cache does not already hold the requested voice, `loadVoiceModel` fetches
both the ONNX model and its `.onnx.json` config exactly when the voice is in
the discovered list; it throws when the voice is missing or either fetch is
non-ok (or the config fails to parse), leaving `selectedVoice` and
`currentModelData` untouched in every error case; and only when both fetches
succeed does it set `selectedVoice := voiceId` and cache the fetched model
and config.  (On a cache hit it instead returns immediately, fetching
nothing and changing nothing.) -/
theorem C6_load_voice_model (st : PEState) (voiceId : String) (env : FetchEnv) (cfg : String)
    (hp : st.piperPresent = true)
    (hcache : ∀ m ∈ st.currentModelData, m.voiceId ≠ voiceId) :
    (st.voices.find? (fun v => v.id = voiceId) = none →
      (loadVoiceModel st voiceId env).result.isOk = false
      ∧ (loadVoiceModel st voiceId env).state = st
      ∧ (loadVoiceModel st voiceId env).fetched = [])
    ∧ (∀ v, st.voices.find? (fun v => v.id = voiceId) = some v →
      (loadVoiceModel st voiceId env).fetched = [v.modelPath, v.modelPath ++ ".json"]
      ∧ ((env.modelOk = false ∨ env.configOk = false ∨ env.configJson.isOk = false) →
          (loadVoiceModel st voiceId env).result.isOk = false
          ∧ (loadVoiceModel st voiceId env).state = st)
      ∧ (env.modelOk = true → env.configOk = true → env.configJson = .ok cfg →
          (loadVoiceModel st voiceId env).result = .ok v
          ∧ (loadVoiceModel st voiceId env).state
              = { st with selectedVoice := some voiceId,
                          currentModelData := some ⟨voiceId, env.modelData, cfg⟩ })) := by
  have hnoc : st.currentModelData.any (fun m => m.voiceId = voiceId) = false := by
    cases hm : st.currentModelData with
    | none => rfl
    | some m =>
      simp only [Option.any_some, decide_eq_false_iff_not]
      exact hcache m (by rw [hm]; rfl)
  constructor
  · intro hfind
    simp [loadVoiceModel, hp, hnoc, hfind, Except.isOk, Except.toBool]
  · intro v hfind
    refine ⟨?_, ?_, ?_⟩
    · by_cases hmo : env.modelOk <;> by_cases hco : env.configOk <;>
        simp only [loadVoiceModel, hp, hnoc, hfind, hmo, hco] <;>
        cases hcj : env.configJson <;> simp
    · intro herr
      rcases herr with h | h | h
      · simp [loadVoiceModel, hp, hnoc, hfind, h, Except.isOk, Except.toBool]
      · by_cases hmo : env.modelOk <;>
          simp [loadVoiceModel, hp, hnoc, hfind, h, hmo, Except.isOk, Except.toBool]
      · cases hcj : env.configJson with
        | ok c => rw [hcj] at h; simp [Except.isOk, Except.toBool] at h
        | error e =>
          by_cases hmo : env.modelOk <;> by_cases hco : env.configOk <;>
            simp [loadVoiceModel, hp, hnoc, hfind, hmo, hco, hcj, Except.isOk, Except.toBool]
    · intro hmo hco hcj
      simp [loadVoiceModel, hp, hnoc, hfind, hmo, hco, hcj]

theorem C6_load_voice_model_witness :
    ((PEState.mk true [⟨"A", "A", "/onnx/A.onnx"⟩] none none true).piperPresent = true
      ∧ (∀ m ∈ (PEState.mk true [⟨"A", "A", "/onnx/A.onnx"⟩] none none true).currentModelData,
          m.voiceId ≠ "A"))
    ∧ (((PEState.mk true [⟨"A", "A", "/onnx/A.onnx"⟩] none none true).voices.find?
          (fun v => v.id = "A") = none →
        (loadVoiceModel (PEState.mk true [⟨"A", "A", "/onnx/A.onnx"⟩] none none true) "A"
          ⟨true, true, 200, 200, [7], .ok "cfg"⟩).result.isOk = false
        ∧ (loadVoiceModel (PEState.mk true [⟨"A", "A", "/onnx/A.onnx"⟩] none none true) "A"
            ⟨true, true, 200, 200, [7], .ok "cfg"⟩).state
            = PEState.mk true [⟨"A", "A", "/onnx/A.onnx"⟩] none none true
        ∧ (loadVoiceModel (PEState.mk true [⟨"A", "A", "/onnx/A.onnx"⟩] none none true) "A"
            ⟨true, true, 200, 200, [7], .ok "cfg"⟩).fetched = [])
      ∧ (∀ v, (PEState.mk true [⟨"A", "A", "/onnx/A.onnx"⟩] none none true).voices.find?
            (fun v => v.id = "A") = some v →
          (loadVoiceModel (PEState.mk true [⟨"A", "A", "/onnx/A.onnx"⟩] none none true) "A"
            ⟨true, true, 200, 200, [7], .ok "cfg"⟩).fetched
            = [v.modelPath, v.modelPath ++ ".json"]
          ∧ (((FetchEnv.mk true true 200 200 [7] (.ok "cfg")).modelOk = false
              ∨ (FetchEnv.mk true true 200 200 [7] (.ok "cfg")).configOk = false
              ∨ (FetchEnv.mk true true 200 200 [7] (.ok "cfg")).configJson.isOk = false) →
              (loadVoiceModel (PEState.mk true [⟨"A", "A", "/onnx/A.onnx"⟩] none none true) "A"
                ⟨true, true, 200, 200, [7], .ok "cfg"⟩).result.isOk = false
              ∧ (loadVoiceModel (PEState.mk true [⟨"A", "A", "/onnx/A.onnx"⟩] none none true) "A"
                  ⟨true, true, 200, 200, [7], .ok "cfg"⟩).state
                  = PEState.mk true [⟨"A", "A", "/onnx/A.onnx"⟩] none none true)
          ∧ ((FetchEnv.mk true true 200 200 [7] (.ok "cfg")).modelOk = true →
              (FetchEnv.mk true true 200 200 [7] (.ok "cfg")).configOk = true →
              (FetchEnv.mk true true 200 200 [7] (.ok "cfg")).configJson = .ok "cfg" →
              (loadVoiceModel (PEState.mk true [⟨"A", "A", "/onnx/A.onnx"⟩] none none true) "A"
                ⟨true, true, 200, 200, [7], .ok "cfg"⟩).result = .ok v
              ∧ (loadVoiceModel (PEState.mk true [⟨"A", "A", "/onnx/A.onnx"⟩] none none true) "A"
                  ⟨true, true, 200, 200, [7], .ok "cfg"⟩).state
                  = { PEState.mk true [⟨"A", "A", "/onnx/A.onnx"⟩] none none true with
                        selectedVoice := some "A",
                        currentModelData := some ⟨"A",
                          (FetchEnv.mk true true 200 200 [7] (.ok "cfg")).modelData, "cfg"⟩ }))) :=
  ⟨⟨rfl, by decide⟩,
    C6_load_voice_model (PEState.mk true [⟨"A", "A", "/onnx/A.onnx"⟩] none none true) "A"
      ⟨true, true, 200, 200, [7], .ok "cfg"⟩ "cfg" rfl (by decide)⟩

/-- **C4.**  For an initialized `PiperEngine` with a selected voice and
non-empty text, when the method-dispatch block throws (every attempted
synthesis method failed, or none exists), `synthesizeToSpeech` does not
propagate the error: the catch block substitutes one second of silence, and
the call returns `success := true` with a 22050-sample all-zero PCM buffer
at 22050 Hz. -/
theorem C4_silent_fallback (st : PEState) (p : PiperModel) (s v e : String)
    (opts : SynthOptions) (env : FetchEnv)
    (hinit : st.isInitialized = true)
    (hsel : st.selectedVoice = some v)
    (hv : v ≠ "")
    (hopts : opts.voiceId = none ∨ opts.voiceId = some v)
    (htext : textEmpty (some s) = false)
    (herr : tryMethods p = .error e) :
    ∃ out, (PiperEngine.synthesizeToSpeech st p (some s) opts env).1 = .ok out
      ∧ out.success = true
      ∧ out.pcm = List.replicate 22050 0
      ∧ out.sampleRate = 22050 := by
  refine ⟨⟨true, List.replicate 22050 0, 22050,
    ((List.replicate 22050 (0 : ℚ)).length : ℚ) / 22050, s, v⟩, ?_, rfl, rfl, rfl⟩
  rcases hopts with ho | ho <;>
  · simp only [PiperEngine.synthesizeToSpeech, hinit, htext, hsel, ho, jsOrOptStr, jsOrNat, herr,
      Bool.not_true, not_true, Bool.false_eq_true, not_false_iff, if_true, if_false, ite_true,
      ite_false, reduceIte, ne_eq, not_true_eq_false, ite_self]
    rw [if_neg hv]
    simp only [ite_self, Option.getD_some]

theorem C4_silent_fallback_witness :
    ((PEState.mk true [] (some "en") none true).isInitialized = true
      ∧ (PEState.mk true [] (some "en") none true).selectedVoice = some "en"
      ∧ "en" ≠ ""
      ∧ ((SynthOptions.mk none none).voiceId = none
          ∨ (SynthOptions.mk none none).voiceId = some "en")
      ∧ textEmpty (some "hi") = false
      ∧ tryMethods (PiperModel.mk none none none false (.error "x"))
          = .error "Cannot find synthesis method on Piper instance")
    ∧ (∃ out, (PiperEngine.synthesizeToSpeech (PEState.mk true [] (some "en") none true)
          (PiperModel.mk none none none false (.error "x")) (some "hi")
          (SynthOptions.mk none none) (FetchEnv.mk true true 200 200 [] (.ok "cfg"))).1 = .ok out
        ∧ out.success = true
        ∧ out.pcm = List.replicate 22050 0
        ∧ out.sampleRate = 22050) :=
  ⟨⟨rfl, rfl, by decide, Or.inl rfl, by decide, rfl⟩,
    C4_silent_fallback (PEState.mk true [] (some "en") none true)
      (PiperModel.mk none none none false (.error "x")) "hi" "en"
      "Cannot find synthesis method on Piper instance"
      (SynthOptions.mk none none) (FetchEnv.mk true true 200 200 [] (.ok "cfg"))
      rfl rfl (by decide) (Or.inl rfl) (by decide) rfl⟩

/-- **C3.**  When Piper is ready and enabled but the Piper synthesis call
throws, `VoiceForgeEngine.synthesizeToSpeech` returns the Web Speech
backend's result (`AudioEngine.synthesizeToSpeech`) instead of propagating
the Piper error, sets `usePiper := false`, and every subsequent call with
non-empty text goes straight to the Web Speech backend. -/
theorem C3_piper_fallback (st : VFState) (text : Option String) (opts : SynthOptions)
    (env : SynthEnv) (e : String)
    (htext : textEmpty text = false)
    (hready : st.piperReady = true)
    (huse : st.usePiper = true)
    (herr : (PiperEngine.synthesizeToSpeech st.pe env.p text opts env.fetch).1 = .error e) :
    (VoiceForgeEngine.synthesizeToSpeech st text opts env).1
        = AudioEngine.synthesizeToSpeech st.speechSupported text env.previewOutcome
    ∧ (VoiceForgeEngine.synthesizeToSpeech st text opts env).2.usePiper = false
    ∧ (∀ (text2 : Option String) (opts2 : SynthOptions) (env2 : SynthEnv),
        textEmpty text2 = false →
        (VoiceForgeEngine.synthesizeToSpeech
            (VoiceForgeEngine.synthesizeToSpeech st text opts env).2 text2 opts2 env2).1
          = AudioEngine.synthesizeToSpeech
              (VoiceForgeEngine.synthesizeToSpeech st text opts env).2.speechSupported
              text2 env2.previewOutcome) := by
  rcases hpr : PiperEngine.synthesizeToSpeech st.pe env.p text opts env.fetch with ⟨res, pe1⟩
  have hres : res = .error e := by
    rw [hpr] at herr
    exact herr
  subst hres
  refine ⟨?_, ?_, ?_⟩
  · simp [VoiceForgeEngine.synthesizeToSpeech, htext, hready, huse, hpr]
  · simp [VoiceForgeEngine.synthesizeToSpeech, htext, hready, huse, hpr]
  · intro text2 opts2 env2 htext2
    simp [VoiceForgeEngine.synthesizeToSpeech, htext, hready, huse, hpr, htext2]

theorem C3_piper_fallback_witness :
    (textEmpty (some "hi") = false
      ∧ (VFState.mk true true (PEState.mk true [] none none false) true).piperReady = true
      ∧ (VFState.mk true true (PEState.mk true [] none none false) true).usePiper = true
      ∧ (PiperEngine.synthesizeToSpeech
          (VFState.mk true true (PEState.mk true [] none none false) true).pe
          (SynthEnv.mk (PiperModel.mk none none none false (.error "x"))
            (FetchEnv.mk true true 200 200 [] (.ok "cfg")) (.ok ())).p
          (some "hi") (SynthOptions.mk none none)
          (SynthEnv.mk (PiperModel.mk none none none false (.error "x"))
            (FetchEnv.mk true true 200 200 [] (.ok "cfg")) (.ok ())).fetch).1
          = .error "Piper not initialized. Call initialize() first.")
    ∧ ((VoiceForgeEngine.synthesizeToSpeech
          (VFState.mk true true (PEState.mk true [] none none false) true) (some "hi")
          (SynthOptions.mk none none)
          (SynthEnv.mk (PiperModel.mk none none none false (.error "x"))
            (FetchEnv.mk true true 200 200 [] (.ok "cfg")) (.ok ()))).1
        = AudioEngine.synthesizeToSpeech
            (VFState.mk true true (PEState.mk true [] none none false) true).speechSupported
            (some "hi")
            (SynthEnv.mk (PiperModel.mk none none none false (.error "x"))
              (FetchEnv.mk true true 200 200 [] (.ok "cfg")) (.ok ())).previewOutcome
      ∧ (VoiceForgeEngine.synthesizeToSpeech
          (VFState.mk true true (PEState.mk true [] none none false) true) (some "hi")
          (SynthOptions.mk none none)
          (SynthEnv.mk (PiperModel.mk none none none false (.error "x"))
            (FetchEnv.mk true true 200 200 [] (.ok "cfg")) (.ok ()))).2.usePiper = false
      ∧ (∀ (text2 : Option String) (opts2 : SynthOptions) (env2 : SynthEnv),
          textEmpty text2 = false →
          (VoiceForgeEngine.synthesizeToSpeech
              (VoiceForgeEngine.synthesizeToSpeech
                (VFState.mk true true (PEState.mk true [] none none false) true) (some "hi")
                (SynthOptions.mk none none)
                (SynthEnv.mk (PiperModel.mk none none none false (.error "x"))
                  (FetchEnv.mk true true 200 200 [] (.ok "cfg")) (.ok ()))).2
              text2 opts2 env2).1
            = AudioEngine.synthesizeToSpeech
                (VoiceForgeEngine.synthesizeToSpeech
                  (VFState.mk true true (PEState.mk true [] none none false) true) (some "hi")
                  (SynthOptions.mk none none)
                  (SynthEnv.mk (PiperModel.mk none none none false (.error "x"))
                    (FetchEnv.mk true true 200 200 [] (.ok "cfg")) (.ok ()))).2.speechSupported
                text2 env2.previewOutcome)) :=
  ⟨⟨by decide, rfl, rfl, rfl⟩,
    C3_piper_fallback (VFState.mk true true (PEState.mk true [] none none false) true)
      (some "hi") (SynthOptions.mk none none)
      (SynthEnv.mk (PiperModel.mk none none none false (.error "x"))
        (FetchEnv.mk true true 200 200 [] (.ok "cfg")) (.ok ()))
      "Piper not initialized. Call initialize() first." (by decide) rfl rfl rfl⟩

/-- **C5.**  For every null/undefined/empty/whitespace-only text, each of the
four synthesis entry points throws `"Text cannot be empty"` before any
synthesis is attempted — the conclusion holds for *every* library shape,
fetch environment and preview outcome, so no synthesis effect is consumed.
(For `PiperEngine` the engine must be initialized and for `AudioEngine`
speech must be supported, since those guards run first; `VoiceForgeEngine`
and an initialized `PiperIntegration` check the text unconditionally.) -/
theorem C5_empty_text_rejected (text : Option String) (h : textEmpty text = true) :
    (∀ (st : PEState) (p : PiperModel) (opts : SynthOptions) (env : FetchEnv),
        st.isInitialized = true →
        (PiperEngine.synthesizeToSpeech st p text opts env).1 = .error "Text cannot be empty")
    ∧ (∀ (supported : Bool) (prev : Except String Unit), supported = true →
        AudioEngine.synthesizeToSpeech supported text prev = .error "Text cannot be empty")
    ∧ (∀ (st : VFState) (opts : SynthOptions) (env : SynthEnv),
        (VoiceForgeEngine.synthesizeToSpeech st text opts env).1 = .error "Text cannot be empty")
    ∧ (∀ (st : VFState) (forcePiper readyAfterWait : Bool) (opts : SynthOptions) (env : SynthEnv),
        (PiperIntegration.generateSpeech true st text forcePiper readyAfterWait opts env).1
          = .error "Text cannot be empty") := by
  refine ⟨?_, ?_, ?_, ?_⟩
  · intro st p opts env hinit
    simp [PiperEngine.synthesizeToSpeech, hinit, h]
  · intro supported prev hsup
    simp [AudioEngine.synthesizeToSpeech, hsup, h]
  · intro st opts env
    simp [VoiceForgeEngine.synthesizeToSpeech, h]
  · intro st forcePiper readyAfterWait opts env
    simp [PiperIntegration.generateSpeech, h]

theorem C5_empty_text_rejected_witness :
    (textEmpty (some "") = true)
    ∧ ((∀ (st : PEState) (p : PiperModel) (opts : SynthOptions) (env : FetchEnv),
          st.isInitialized = true →
          (PiperEngine.synthesizeToSpeech st p (some "") opts env).1
            = .error "Text cannot be empty")
      ∧ (∀ (supported : Bool) (prev : Except String Unit), supported = true →
          AudioEngine.synthesizeToSpeech supported (some "") prev
            = .error "Text cannot be empty")
      ∧ (∀ (st : VFState) (opts : SynthOptions) (env : SynthEnv),
          (VoiceForgeEngine.synthesizeToSpeech st (some "") opts env).1
            = .error "Text cannot be empty")
      ∧ (∀ (st : VFState) (forcePiper readyAfterWait : Bool) (opts : SynthOptions)
            (env : SynthEnv),
          (PiperIntegration.generateSpeech true st (some "") forcePiper readyAfterWait opts env).1
            = .error "Text cannot be empty")) :=
  ⟨by decide, C5_empty_text_rejected (some "") (by decide)⟩

/-! ## `I18n.t` (src/js/i18n.js, lines 46–59)

Parsed translation JSON is a tree of string leaves and nested objects.
`value && typeof value === "object" && part in value` is modelled as a lookup
among the object's own entries. -/

/-- A translation JSON value: a string leaf or a nested object. -/
inductive TransValue where
  | str (s : String)
  | obj (entries : List (String × TransValue))

/-- JS truthiness of a translation value (`""` is falsy, objects are truthy). -/
def truthy : TransValue → Bool
  | .str s => !(s == "")
  | .obj _ => true

/-- `part in value` followed by `value[part]`, on an entry list. -/
def getOwn (es : List (String × TransValue)) (k : String) : Option TransValue :=
  (es.find? (fun e => e.1 == k)).map (fun e => e.2)

/-- The `for (const part of parts)` loop of `I18n.t`: returning `none` models
the early `return defaultValue`. -/
def tLoop : Option TransValue → List String → Option TransValue
  | v, [] => v
  | some (.obj es), p :: ps =>
    match getOwn es p with
    | some v2 => tLoop (some v2) ps
    | none => none
  | _, _ :: _ => none

/-- `I18n.t(key, defaultValue)`: split the key on `"."`, walk the current
language's translation object, and return `value || defaultValue`. -/
def I18n.t (translations : List (String × TransValue)) (lang key dflt : String) : TransValue :=
  match tLoop (getOwn translations lang) (key.splitOn ".") with
  | some v => if truthy v then v else .str dflt
  | none => .str dflt

/-- `I18n.t(key)` with the default parameter defaulted to the key itself. -/
def I18n.tDefault (translations : List (String × TransValue)) (lang key : String) : TransValue :=
  I18n.t translations lang key key

/-- Specification-side path resolution, one segment at a time: defined only
by descending through object entries, failing on a missing segment or on a
non-object intermediate value. -/
def resolvePath : TransValue → List String → Option TransValue
  | v, [] => some v
  | .obj es, p :: ps =>
    match getOwn es p with
    | some v2 => resolvePath v2 ps
    | none => none
  | .str _, _ :: _ => none

theorem tLoop_some (parts : List String) :
    ∀ root : TransValue, tLoop (some root) parts = resolvePath root parts := by
  induction parts with
  | nil => intro root; cases root <;> rfl
  | cons p ps ih =>
    intro root
    cases root with
    | str s => rfl
    | obj es =>
      simp only [tLoop, resolvePath]
      cases getOwn es p with
      | none => rfl
      | some v2 => exact ih v2

theorem tLoop_none (parts : List String) : tLoop none parts = none := by
  cases parts <;> rfl

/-- **C7.**  `I18n.t` splits the key on `"."`, walks the nested translation
object of the current language one segment at a time and returns the value at
the end of the path; whenever a segment is missing or an intermediate value
is not an object (including an unknown language), or the resolved value is
falsy (an empty string), it returns the supplied default — which is the key
itself when no default is supplied. -/
theorem C7_i18n_lookup (translations : List (String × TransValue)) (lang key dflt : String) :
    (I18n.t translations lang key dflt
      = match (getOwn translations lang).bind
            (fun root => resolvePath root (key.splitOn ".")) with
        | some v => if truthy v then v else .str dflt
        | none => .str dflt)
    ∧ I18n.tDefault translations lang key = I18n.t translations lang key key := by
  refine ⟨?_, rfl⟩
  unfold I18n.t
  cases hroot : getOwn translations lang with
  | none => rw [tLoop_none]; rfl
  | some root => rw [tLoop_some]; rfl

/-! ## The service-worker fetch handler (src/sw.js, lines 54–93) -/

/-- The part of a fetch-event request the handler inspects. -/
structure SWRequest where
  method : String
  url : String
deriving DecidableEq

/-- A fetch `Response`: status, `type` (e.g. `"basic"`, `"error"`) and body. -/
structure SWResponse where
  status : Nat
  rtype : String
  body : List Nat
deriving DecidableEq

/-- The service-worker cache, keyed by request URL. -/
abbrev SWCache := List (String × SWResponse)

/-- `caches.match(request)`. -/
def cacheMatch (c : SWCache) (u : String) : Option SWResponse :=
  (c.find? (fun e => e.1 == u)).map (fun e => e.2)

/-- `cache.put(request, response)` (the new entry shadows any older one). -/
def cachePut (c : SWCache) (u : String) (r : SWResponse) : SWCache :=
  (u, r) :: c

/-- What one fetch event produces: whether `respondWith` was installed, the
response it resolves with, and the cache afterwards. -/
structure SWOutcome where
  intercepted : Bool
  response : Option SWResponse
  cache : SWCache
deriving DecidableEq

/-- The `fetch` listener: skip non-GET; answer from cache when a match
exists; otherwise go to the network (`net` carries the fetch outcome), cache
only status-200 non-error responses, and on network failure answer with the
cached `/index.html`. -/
def swHandleFetch (cache : SWCache) (req : SWRequest) (net : Except Unit SWResponse) :
    SWOutcome :=
  if req.method ≠ "GET" then ⟨false, none, cache⟩
  else
    match cacheMatch cache req.url with
    | some r => ⟨true, some r, cache⟩
    | none =>
      match net with
      | .error _ => ⟨true, cacheMatch cache "/index.html", cache⟩
      | .ok resp =>
        if resp.status ≠ 200 ∨ resp.rtype = "error" then ⟨true, some resp, cache⟩
        else ⟨true, some resp, cachePut cache req.url resp⟩

/-- **C8.**  Non-GET requests are never intercepted; a cached match is
returned with no dependence on the network outcome and no cache change; on a
cache miss the network response is returned, and stored only when it is a
status-200 non-error response; when the network fetch fails the worker
responds with the cached `/index.html`. -/
theorem C8_service_worker (cache : SWCache) (req : SWRequest) :
    (req.method ≠ "GET" →
      ∀ net, swHandleFetch cache req net = ⟨false, none, cache⟩)
    ∧ (req.method = "GET" →
      (∀ r, cacheMatch cache req.url = some r →
        ∀ net, swHandleFetch cache req net = ⟨true, some r, cache⟩)
      ∧ (cacheMatch cache req.url = none →
        (∀ resp, resp.status ≠ 200 ∨ resp.rtype = "error" →
          swHandleFetch cache req (.ok resp) = ⟨true, some resp, cache⟩)
        ∧ (∀ resp, resp.status = 200 → resp.rtype ≠ "error" →
          swHandleFetch cache req (.ok resp)
            = ⟨true, some resp, cachePut cache req.url resp⟩
          ∧ cacheMatch (cachePut cache req.url resp) req.url = some resp)
        ∧ swHandleFetch cache req (.error ())
            = ⟨true, cacheMatch cache "/index.html", cache⟩)) := by
  constructor
  · intro hm net
    simp [swHandleFetch, hm]
  · intro hm
    refine ⟨?_, ?_⟩
    · intro r hr net
      simp [swHandleFetch, hm, hr]
    · intro hmiss
      refine ⟨?_, ?_, ?_⟩
      · intro resp hbad
        simp [swHandleFetch, hm, hmiss, hbad]
      · intro resp hstatus hrtype
        constructor
        · simp [swHandleFetch, hm, hmiss, hstatus, hrtype]
        · simp [cacheMatch, cachePut]
      · simp [swHandleFetch, hm, hmiss]

theorem C8_service_worker_witness :
    ((SWRequest.mk "GET" "/app.js").method = "GET"
      ∧ cacheMatch [] (SWRequest.mk "GET" "/app.js").url = none
      ∧ (SWResponse.mk 200 "basic" [1]).status = 200
      ∧ (SWResponse.mk 200 "basic" [1]).rtype ≠ "error")
    ∧ (swHandleFetch [] (SWRequest.mk "GET" "/app.js") (.ok (SWResponse.mk 200 "basic" [1]))
        = ⟨true, some (SWResponse.mk 200 "basic" [1]),
            cachePut [] (SWRequest.mk "GET" "/app.js").url (SWResponse.mk 200 "basic" [1])⟩
      ∧ cacheMatch
          (cachePut [] (SWRequest.mk "GET" "/app.js").url (SWResponse.mk 200 "basic" [1]))
          (SWRequest.mk "GET" "/app.js").url = some (SWResponse.mk 200 "basic" [1])) :=
  ⟨⟨rfl, rfl, rfl, by decide⟩,
    (((C8_service_worker [] (SWRequest.mk "GET" "/app.js")).2 rfl).2 rfl).2.1
      (SWResponse.mk 200 "basic" [1]) rfl (by decide)⟩

/-! ## A JSON core (model of the host `JSON.stringify` / `JSON.parse`)

`getFromStorage` / `saveToStorage` round-trip values through the host JSON
library.  We model the JSON value space needed by the history records —
strings, integers (numeric leaves are modelled as integers; floating-point
number formatting is out of scope for this embedding), arrays and objects —
with an executable serializer and parser, and prove the round-trip. -/

/-- A JSON value (numeric leaves restricted to integers). -/
inductive Json where
  | str (s : String)
  | num (n : Int)
  | arr (elems : List Json)
  | obj (entries : List (String × Json))

/-- Structural induction for `Json` through its nested lists. -/
theorem json_induction (P : Json → Prop)
    (hstr : ∀ s, P (.str s)) (hnum : ∀ n, P (.num n))
    (harr : ∀ xs, (∀ x ∈ xs, P x) → P (.arr xs))
    (hobj : ∀ es, (∀ e ∈ es, P e.2) → P (.obj es)) : ∀ v, P v
  | .str s => hstr s
  | .num n => hnum n
  | .arr xs => harr xs (fun x hx =>
      have : sizeOf x < sizeOf (Json.arr xs) := by
        have := List.sizeOf_lt_of_mem hx
        simp only [Json.arr.sizeOf_spec]
        omega
      json_induction P hstr hnum harr hobj x)
  | .obj es => hobj es (fun e he =>
      have : sizeOf e.2 < 1 + sizeOf es := by
        have h1 := List.sizeOf_lt_of_mem he
        have h3 : sizeOf e.2 < sizeOf e := by
          obtain ⟨a, b⟩ := e
          simp only [Prod.mk.sizeOf_spec]
          omega
        omega
      json_induction P hstr hnum harr hobj e.2)
termination_by v => sizeOf v

/-- The opening-brace and closing-brace characters (codes 123 and 125). -/
def lbraceChar : Char := Char.ofNat 123

def rbraceChar : Char := Char.ofNat 125

/-- Lowercase hexadecimal digit. -/
def hexDigit (n : Nat) : Char :=
  if n < 10 then Char.ofNat (48 + n) else Char.ofNat (87 + n)

/-- `JSON.stringify`'s escaping of one string character: `\"` and `\\`, the
short escapes `\b \t \n \f \r`, `\u00xx` for the other control characters,
and everything else verbatim. -/
def escChar (c : Char) : List Char :=
  if c = '"' then ['\\', '"']
  else if c = '\\' then ['\\', '\\']
  else if c.toNat = 8 then ['\\', 'b']
  else if c.toNat = 9 then ['\\', 't']
  else if c.toNat = 10 then ['\\', 'n']
  else if c.toNat = 12 then ['\\', 'f']
  else if c.toNat = 13 then ['\\', 'r']
  else if c.toNat < 32 then ['\\', 'u', '0', '0', hexDigit (c.toNat / 16), hexDigit (c.toNat % 16)]
  else [c]

/-- A JSON string literal: quote, escaped characters, quote. -/
def escStr (s : String) : List Char :=
  '"' :: s.data.flatMap escChar ++ ['"']

/-- Decimal digits of a natural number, most significant first. -/
def natDigits (n : Nat) : List Char :=
  if h : n < 10 then [Char.ofNat (48 + n)]
  else natDigits (n / 10) ++ [Char.ofNat (48 + n % 10)]
decreasing_by exact Nat.div_lt_self (by omega) (by omega)

/-- Decimal representation of an integer. -/
def intChars (i : Int) : List Char :=
  if i < 0 then '-' :: natDigits i.natAbs else natDigits i.toNat

mutual

/-- `JSON.stringify` (no spacing), over the modelled value space. -/
def jsonEmit : Json → List Char
  | .str s => escStr s
  | .num n => intChars n
  | .arr xs => '[' :: emitElems xs ++ [']']
  | .obj es => lbraceChar :: emitMembers es ++ [rbraceChar]

/-- Comma-separated array elements. -/
def emitElems : List Json → List Char
  | [] => []
  | [x] => jsonEmit x
  | x :: y :: t => jsonEmit x ++ ',' :: emitElems (y :: t)

/-- Comma-separated `"key":value` members. -/
def emitMembers : List (String × Json) → List Char
  | [] => []
  | [e] => escStr e.1 ++ ':' :: jsonEmit e.2
  | e :: f :: t => escStr e.1 ++ ':' :: jsonEmit e.2 ++ ',' :: emitMembers (f :: t)

end

/-- Hexadecimal digit test. -/
def isHex (c : Char) : Bool :=
  c.isDigit || ('a' ≤ c && c ≤ 'f') || ('A' ≤ c && c ≤ 'F')

/-- Value of a hexadecimal digit. -/
def hexVal (c : Char) : Nat :=
  if c.isDigit then c.toNat - 48
  else if 'a' ≤ c then c.toNat - 87
  else c.toNat - 55

/-- Value of a run of decimal digits. -/
def digitsVal (ds : List Char) : Nat :=
  ds.foldl (fun a c => a * 10 + (c.toNat - 48)) 0

/-- Parse a JSON integer: optional minus sign, then one or more digits
(consumed greedily). -/
def pInt (cs : List Char) : Option (Int × List Char) :=
  match cs with
  | [] => none
  | c :: cs1 =>
    if c = '-' then
      match cs1.span (fun c => c.isDigit) with
      | ([], _) => none
      | (ds, rest) => some (-(digitsVal ds : Int), rest)
    else
      match (c :: cs1).span (fun c => c.isDigit) with
      | ([], _) => none
      | (ds, rest) => some ((digitsVal ds : Int), rest)

/-- Parse a JSON string body after the opening quote, up to and including the
closing quote; the fuel decreases once per consumed escape group. -/
def pStrBody : Nat → List Char → Option (List Char × List Char)
  | 0, _ => none
  | _ + 1, [] => none
  | fuel + 1, c :: cs =>
    if c = '"' then some ([], cs)
    else if c = '\\' then
      match cs with
      | [] => none
      | e :: cs2 =>
        if e = '"' ∨ e = '\\' ∨ e = '/' then
          (pStrBody fuel cs2).map (fun r => (e :: r.1, r.2))
        else if e = 'b' then (pStrBody fuel cs2).map (fun r => (Char.ofNat 8 :: r.1, r.2))
        else if e = 't' then (pStrBody fuel cs2).map (fun r => (Char.ofNat 9 :: r.1, r.2))
        else if e = 'n' then (pStrBody fuel cs2).map (fun r => (Char.ofNat 10 :: r.1, r.2))
        else if e = 'f' then (pStrBody fuel cs2).map (fun r => (Char.ofNat 12 :: r.1, r.2))
        else if e = 'r' then (pStrBody fuel cs2).map (fun r => (Char.ofNat 13 :: r.1, r.2))
        else if e = 'u' then
          match cs2 with
          | h1 :: h2 :: h3 :: h4 :: cs3 =>
            if isHex h1 && isHex h2 && isHex h3 && isHex h4 then
              (pStrBody fuel cs3).map (fun r =>
                (Char.ofNat (((hexVal h1 * 16 + hexVal h2) * 16 + hexVal h3) * 16 + hexVal h4)
                  :: r.1, r.2))
            else none
          | _ => none
        else none
    else (pStrBody fuel cs).map (fun r => (c :: r.1, r.2))

mutual

/-- Parse one JSON value. -/
def pVal : Nat → List Char → Option (Json × List Char)
  | 0, _ => none
  | fuel + 1, cs =>
    match cs with
    | [] => none
    | c :: cs1 =>
      if c = '"' then
        (pStrBody (cs1.length + 1) cs1).map (fun r => (Json.str (String.mk r.1), r.2))
      else if c = '[' then
        match cs1 with
        | [] => none
        | c1 :: rest1 =>
          if c1 = ']' then some (.arr [], rest1)
          else (pElems fuel cs1).map (fun r => (Json.arr r.1, r.2))
      else if c = lbraceChar then
        match cs1 with
        | [] => none
        | c1 :: rest1 =>
          if c1 = rbraceChar then some (.obj [], rest1)
          else (pMembers fuel cs1).map (fun r => (Json.obj r.1, r.2))
      else if c = '-' ∨ c.isDigit then
        (pInt (c :: cs1)).map (fun r => (Json.num r.1, r.2))
      else none

/-- Parse one or more comma-separated values and the closing `]`. -/
def pElems : Nat → List Char → Option (List Json × List Char)
  | 0, _ => none
  | fuel + 1, cs =>
    match pVal fuel cs with
    | none => none
    | some (v, rest) =>
      match rest with
      | [] => none
      | r1 :: rest1 =>
        if r1 = ',' then (pElems fuel rest1).map (fun r => (v :: r.1, r.2))
        else if r1 = ']' then some ([v], rest1)
        else none

/-- Parse one or more comma-separated `"key":value` members and the closing
brace. -/
def pMembers : Nat → List Char → Option (List (String × Json) × List Char)
  | 0, _ => none
  | fuel + 1, cs =>
    match cs with
    | '"' :: cs1 =>
      match pStrBody (cs1.length + 1) cs1 with
      | none => none
      | some (k, rest) =>
        match rest with
        | ':' :: rest2 =>
          match pVal fuel rest2 with
          | none => none
          | some (v, rest3) =>
            match rest3 with
            | [] => none
            | r1 :: rest4 =>
              if r1 = ',' then
                (pMembers fuel rest4).map (fun r => ((String.mk k, v) :: r.1, r.2))
              else if r1 = rbraceChar then some ([(String.mk k, v)], rest4)
              else none
        | _ => none
    | _ => none

end

/-- `JSON.parse` over the modelled value space: parse one value and require
the input to be fully consumed (`none` models a parse exception). -/
def jsonParse (s : String) : Option Json :=
  match pVal (2 * s.data.length + 2) s.data with
  | some (v, []) => some v
  | _ => none

/-! ### Round-trip lemmas: numbers -/

theorem charOfNat_toNat (n : Nat) (h : n < 55296) : (Char.ofNat n).toNat = n := by
  have hv : n.isValidChar := Or.inl h
  simp only [Char.ofNat, hv, dite_true, Char.ofNatAux, Char.toNat]
  rfl

/-- The input head is not a decimal digit (what a greedy number parse needs
to stop at the right place). -/
def noDigitHead : List Char → Prop
  | [] => True
  | c :: _ => c.isDigit = false

theorem digitChar_isDigit : ∀ m < 10, (Char.ofNat (48 + m)).isDigit = true := by decide

theorem digitChar_val : ∀ m < 10, (Char.ofNat (48 + m)).toNat - 48 = m := by decide

theorem natDigits_digits (n : Nat) : ∀ c ∈ natDigits n, c.isDigit = true := by
  induction n using Nat.strong_induction_on with
  | _ n ih =>
    rw [natDigits]
    by_cases h : n < 10
    · simp only [h, dite_true, List.mem_singleton]
      intro c hc
      subst hc
      exact digitChar_isDigit n h
    · simp only [h, dite_false, List.mem_append, List.mem_singleton]
      intro c hc
      rcases hc with hc | hc
      · exact ih (n / 10) (Nat.div_lt_self (by omega) (by omega)) c hc
      · subst hc
        exact digitChar_isDigit (n % 10) (Nat.mod_lt n (by omega))

theorem natDigits_ne_nil (n : Nat) : natDigits n ≠ [] := by
  rw [natDigits]
  by_cases h : n < 10 <;> simp [h]

theorem digitsVal_append_single (A : List Char) (d : Char) :
    digitsVal (A ++ [d]) = digitsVal A * 10 + (d.toNat - 48) := by
  simp [digitsVal, List.foldl_append]

theorem natDigits_val (n : Nat) : digitsVal (natDigits n) = n := by
  induction n using Nat.strong_induction_on with
  | _ n ih =>
    rw [natDigits]
    by_cases h : n < 10
    · simp only [h, dite_true]
      have := digitChar_val n h
      simp [digitsVal]
      omega
    · simp only [h, dite_false, digitsVal_append_single,
        ih (n / 10) (Nat.div_lt_self (by omega) (by omega))]
      have := digitChar_val (n % 10) (Nat.mod_lt n (by omega))
      omega

theorem span_digits (ds : List Char) (rest : List Char)
    (hds : ∀ c ∈ ds, c.isDigit = true) (hrest : noDigitHead rest) :
    (ds ++ rest).span (fun c => c.isDigit) = (ds, rest) := by
  induction ds with
  | nil =>
    cases rest with
    | nil => rfl
    | cons r t =>
      simp only [noDigitHead] at hrest
      simp [List.span_eq_take_drop, hrest]
  | cons d ds ih =>
    have hd : d.isDigit = true := hds d (List.mem_cons_self d ds)
    have ih2 := ih (fun c hc => hds c (List.mem_cons_of_mem d hc))
    simp only [List.span_eq_take_drop] at ih2 ⊢
    simp only [List.cons_append, List.takeWhile_cons, List.dropWhile_cons, hd, if_true]
    simp only [Prod.mk.injEq] at ih2
    simp [ih2.1, ih2.2]

theorem digit_ne (c : Char) (h : c.isDigit = true) :
    c ≠ '"' ∧ c ≠ '[' ∧ c ≠ lbraceChar ∧ c ≠ '-' ∧ c ≠ ']'
      ∧ c ≠ rbraceChar ∧ c ≠ ',' ∧ c ≠ ':' := by
  refine ⟨?_, ?_, ?_, ?_, ?_, ?_, ?_, ?_⟩ <;>
    (intro he; rw [he] at h; exact absurd h (by decide))

theorem pInt_emit (n : Int) (rest : List Char) (hrest : noDigitHead rest) :
    pInt (intChars n ++ rest) = some (n, rest) := by
  by_cases hn : n < 0
  · rw [show intChars n = '-' :: natDigits n.natAbs by simp [intChars, hn]]
    have hspan := span_digits (natDigits n.natAbs) rest (natDigits_digits _) hrest
    obtain ⟨d, ds, hds⟩ := List.exists_cons_of_ne_nil (natDigits_ne_nil n.natAbs)
    rw [hds] at hspan ⊢
    simp only [List.cons_append] at hspan ⊢
    simp only [pInt, reduceIte]
    rw [hspan]
    show some (-(digitsVal (d :: ds) : Int), rest) = some (n, rest)
    rw [← hds, natDigits_val]
    have h2 : -((n.natAbs : Int)) = n := by omega
    rw [h2]
  · rw [show intChars n = natDigits n.toNat by simp [intChars, hn]]
    have hspan := span_digits (natDigits n.toNat) rest (natDigits_digits _) hrest
    obtain ⟨d, ds, hds⟩ := List.exists_cons_of_ne_nil (natDigits_ne_nil n.toNat)
    have hd : d.isDigit = true := by
      apply natDigits_digits n.toNat
      rw [hds]
      exact List.mem_cons_self d ds
    rw [hds] at hspan ⊢
    simp only [List.cons_append] at hspan ⊢
    simp only [pInt]
    rw [if_neg (digit_ne d hd).2.2.2.1, hspan]
    show some ((digitsVal (d :: ds) : Int), rest) = some (n, rest)
    rw [← hds, natDigits_val]
    have h2 : ((n.toNat : Int)) = n := by omega
    rw [h2]

/-! ### Round-trip lemmas: strings -/

theorem escChar_length_pos (c : Char) : 1 ≤ (escChar c).length := by
  unfold escChar
  split_ifs <;> simp

theorem flatMap_escChar_ge (l : List Char) : l.length ≤ (l.flatMap escChar).length := by
  induction l with
  | nil => simp
  | cons c cs ih =>
    simp only [List.flatMap_cons, List.length_append, List.length_cons]
    have := escChar_length_pos c
    omega

theorem hexRound : ∀ m < 16, isHex (hexDigit m) = true ∧ hexVal (hexDigit m) = m := by decide

theorem pStrBody_emit (s : List Char) : ∀ (fuel : Nat) (rest : List Char), s.length < fuel →
    pStrBody fuel (s.flatMap escChar ++ '"' :: rest) = some (s, rest) := by
  induction s with
  | nil =>
    intro fuel rest h
    match fuel with
    | f + 1 => simp [pStrBody]
  | cons c cs ih =>
    intro fuel rest h
    match fuel with
    | f + 1 =>
    have hcs : cs.length < f := by
      simp only [List.length_cons] at h
      omega
    have ihf := ih f rest hcs
    simp only [List.flatMap_cons, List.append_assoc]
    by_cases h1 : c = '"'
    · subst h1
      simp [escChar, pStrBody, ihf]
    · by_cases h2 : c = '\\'
      · subst h2
        simp [escChar, pStrBody, ihf, h1]
      · by_cases h3 : c.toNat = 8
        · rw [show escChar c = ['\\', 'b'] by simp [escChar, h1, h2, h3]]
          have hc : Char.ofNat 8 = c := by rw [← h3, Char.ofNat_toNat]
          subst hc
          simp [pStrBody, ihf]
        · by_cases h4 : c.toNat = 9
          · rw [show escChar c = ['\\', 't'] by simp [escChar, h1, h2, h3, h4]]
            have hc : Char.ofNat 9 = c := by rw [← h4, Char.ofNat_toNat]
            subst hc
            simp [pStrBody, ihf]
          · by_cases h5 : c.toNat = 10
            · rw [show escChar c = ['\\', 'n'] by simp [escChar, h1, h2, h3, h4, h5]]
              have hc : Char.ofNat 10 = c := by rw [← h5, Char.ofNat_toNat]
              subst hc
              simp [pStrBody, ihf]
            · by_cases h6 : c.toNat = 12
              · rw [show escChar c = ['\\', 'f'] by simp [escChar, h1, h2, h3, h4, h5, h6]]
                have hc : Char.ofNat 12 = c := by rw [← h6, Char.ofNat_toNat]
                subst hc
                simp [pStrBody, ihf]
              · by_cases h7 : c.toNat = 13
                · rw [show escChar c = ['\\', 'r'] by simp [escChar, h1, h2, h3, h4, h5, h6, h7]]
                  have hc : Char.ofNat 13 = c := by rw [← h7, Char.ofNat_toNat]
                  subst hc
                  simp [pStrBody, ihf]
                · by_cases h8 : c.toNat < 32
                  · rw [show escChar c
                        = ['\\', 'u', '0', '0', hexDigit (c.toNat / 16), hexDigit (c.toNat % 16)]
                      by simp [escChar, h1, h2, h3, h4, h5, h6, h7, h8]]
                    have hd1 := hexRound (c.toNat / 16) (by omega)
                    have hd2 := hexRound (c.toNat % 16) (by omega)
                    have hval : ((hexVal '0' * 16 + hexVal '0') * 16
                        + hexVal (hexDigit (c.toNat / 16))) * 16
                        + hexVal (hexDigit (c.toNat % 16)) = c.toNat := by
                      rw [hd1.2, hd2.2]
                      have h0 : hexVal '0' = 0 := by decide
                      rw [h0]
                      omega
                    simp only [pStrBody, List.cons_append]
                    simp only [show (('\\' : Char) = '"') = False by simp,
                      show (('\\' : Char) = '\\') = True by simp, if_false, if_true, ite_false,
                      ite_true]
                    simp [hd1.1, hd2.1, hval, Char.ofNat_toNat, ihf,
                      show isHex '0' = true from by decide]
                  · rw [show escChar c = [c] by
                      simp [escChar, h1, h2, h3, h4, h5, h6, h7, h8]]
                    simp [pStrBody, h1, h2, ihf]

/-! ### Round-trip: fuel accounting and head characters -/

mutual

/-- Parser-fuel cost of a value. -/
def jsize : Json → Nat
  | .str _ => 1
  | .num _ => 1
  | .arr xs => jsizeL xs + 2
  | .obj es => jsizeM es + 2

def jsizeL : List Json → Nat
  | [] => 1
  | x :: t => jsize x + jsizeL t + 1

def jsizeM : List (String × Json) → Nat
  | [] => 1
  | e :: t => jsize e.2 + jsizeM t + 1

end

theorem jsizeL_pos (xs : List Json) : 1 ≤ jsizeL xs := by
  cases xs <;> simp [jsizeL]

theorem jsizeM_pos (es : List (String × Json)) : 1 ≤ jsizeM es := by
  cases es <;> simp [jsizeM]

theorem jsize_pos (v : Json) : 1 ≤ jsize v := by
  cases v <;> simp [jsize]

/-- Every emitted value starts with a quote, a bracket, a brace, a minus
sign or a digit. -/
theorem emit_head (v : Json) : ∃ c t, jsonEmit v = c :: t
    ∧ (c = '"' ∨ c = '[' ∨ c = lbraceChar ∨ c = '-' ∨ c.isDigit = true) := by
  cases v with
  | str s => exact ⟨'"', _, rfl, Or.inl rfl⟩
  | num n =>
    by_cases hn : n < 0
    · refine ⟨'-', natDigits n.natAbs, ?_, Or.inr (Or.inr (Or.inr (Or.inl rfl)))⟩
      simp [jsonEmit, intChars, hn]
    · obtain ⟨d, ds, hds⟩ := List.exists_cons_of_ne_nil (natDigits_ne_nil n.toNat)
      refine ⟨d, ds, ?_, Or.inr (Or.inr (Or.inr (Or.inr ?_)))⟩
      · simp [jsonEmit, intChars, hn, hds]
      · apply natDigits_digits n.toNat
        rw [hds]
        exact List.mem_cons_self d ds
  | arr xs => exact ⟨'[', _, rfl, Or.inr (Or.inl rfl)⟩
  | obj es => exact ⟨lbraceChar, _, rfl, Or.inr (Or.inr (Or.inl rfl))⟩

theorem emitElems_size (xs : List Json)
    (hx : ∀ x ∈ xs, jsize x ≤ 2 * (jsonEmit x).length) :
    jsizeL xs ≤ 2 * (emitElems xs).length + 2 := by
  match xs with
  | [] => simp [jsizeL, emitElems]
  | [x] =>
    have := hx x (List.mem_cons_self x [])
    simp only [jsizeL, emitElems]
    omega
  | x :: y :: t =>
    have h1 := hx x (List.mem_cons_self x (y :: t))
    have h2 := emitElems_size (y :: t) (fun z hz => hx z (List.mem_cons_of_mem x hz))
    simp only [jsizeL, emitElems, List.length_append, List.length_cons] at h2 ⊢
    omega

theorem emitMembers_size (es : List (String × Json))
    (hx : ∀ e ∈ es, jsize e.2 ≤ 2 * (jsonEmit e.2).length) :
    jsizeM es ≤ 2 * (emitMembers es).length + 2 := by
  match es with
  | [] => simp [jsizeM, emitMembers]
  | [e] =>
    have := hx e (List.mem_cons_self e [])
    simp only [jsizeM, emitMembers, List.length_append, List.length_cons]
    omega
  | e :: f :: t =>
    have h1 := hx e (List.mem_cons_self e (f :: t))
    have h2 := emitMembers_size (f :: t) (fun z hz => hx z (List.mem_cons_of_mem e hz))
    simp only [jsizeM, emitMembers, List.length_append, List.length_cons] at h2 ⊢
    omega

/-- Emission length bounds the parser fuel needed. -/
theorem emit_size (v : Json) : jsize v ≤ 2 * (jsonEmit v).length := by
  induction v using json_induction with
  | hstr s => simp [jsize, jsonEmit, escStr]; omega
  | hnum n =>
    have h1 : 1 ≤ (intChars n).length := by
      by_cases hn : n < 0
      · simp only [intChars, hn, if_true, List.length_cons]
        omega
      · obtain ⟨d2, ds2, hds2⟩ := List.exists_cons_of_ne_nil (natDigits_ne_nil n.toNat)
        simp only [intChars, hn, if_false, hds2, List.length_cons]
        omega
    simp only [jsize, jsonEmit]
    omega
  | harr xs ih =>
    have := emitElems_size xs ih
    simp only [jsize, jsonEmit, List.length_cons, List.length_append]
    simp only [List.length_cons, List.length_nil] at this ⊢
    omega
  | hobj es ih =>
    have := emitMembers_size es ih
    simp only [jsize, jsonEmit, List.length_cons, List.length_append]
    simp only [List.length_cons, List.length_nil] at this ⊢
    omega

theorem parse_emit (fuel : Nat) :
    (∀ (v : Json) (rest : List Char), jsize v ≤ fuel → noDigitHead rest →
      pVal fuel (jsonEmit v ++ rest) = some (v, rest))
    ∧ (∀ (xs : List Json) (rest : List Char), xs ≠ [] → jsizeL xs + 1 ≤ fuel →
      pElems fuel (emitElems xs ++ ']' :: rest) = some (xs, rest))
    ∧ (∀ (es : List (String × Json)) (rest : List Char), es ≠ [] → jsizeM es + 1 ≤ fuel →
      pMembers fuel (emitMembers es ++ rbraceChar :: rest) = some (es, rest)) := by
  induction fuel using Nat.strong_induction_on with
  | _ fuel ih =>
  refine ⟨?_, ?_, ?_⟩
  · intro v rest hsz hrest
    cases fuel with
    | zero => exact absurd hsz (by have := jsize_pos v; omega)
    | succ f =>
      cases v with
      | str s =>
        simp only [jsonEmit, escStr, List.cons_append, List.append_assoc,
          List.singleton_append, List.nil_append]
        simp only [pVal, if_true, List.nil_append]
        rw [pStrBody_emit s.data _ rest (by
          have := flatMap_escChar_ge s.data
          simp only [List.length_append, List.length_cons]
          omega)]
        rfl
      | num n =>
        by_cases hn : n < 0
        · rw [show jsonEmit (Json.num n) = '-' :: natDigits n.natAbs by
            simp [jsonEmit, intChars, hn]]
          simp only [List.cons_append, pVal, true_or, if_true]
          rw [show ('-' :: (natDigits n.natAbs ++ rest)) = intChars n ++ rest by
            simp [intChars, hn]]
          rw [pInt_emit n rest hrest]
          rfl
        · obtain ⟨d, ds, hds⟩ := List.exists_cons_of_ne_nil (natDigits_ne_nil n.toNat)
          have hd : d.isDigit = true := by
            apply natDigits_digits n.toNat
            rw [hds]
            exact List.mem_cons_self d ds
          have hne := digit_ne d hd
          rw [show jsonEmit (Json.num n) = d :: ds by simp [jsonEmit, intChars, hn, hds]]
          simp only [List.cons_append, pVal]
          rw [if_neg hne.1, if_neg hne.2.1, if_neg hne.2.2.1, if_pos (Or.inr hd)]
          rw [show (d :: (ds ++ rest)) = intChars n ++ rest by simp [intChars, hn, hds]]
          rw [pInt_emit n rest hrest]
          rfl
      | arr xs =>
        cases xs with
        | nil =>
          simp only [jsonEmit, emitElems, List.nil_append, List.cons_append, pVal,
            if_true]
          rw [if_neg (by decide : ¬ ('[' : Char) = '"')]
        | cons x t =>
          obtain ⟨c1, t1, hc1, hc1head⟩ := emit_head x
          have hc1ne : ¬ c1 = ']' := by
            rcases hc1head with h | h | h | h | h
            · subst h; decide
            · subst h; decide
            · subst h; decide
            · subst h; decide
            · exact (digit_ne c1 h).2.2.2.2.1
          obtain ⟨t2, ht2⟩ : ∃ t2, emitElems (x :: t) = c1 :: t2 := by
            cases t with
            | nil => exact ⟨t1, by simp [emitElems, hc1]⟩
            | cons y t3 => exact ⟨t1 ++ ',' :: emitElems (y :: t3), by simp [emitElems, hc1]⟩
          have hszl : jsizeL (x :: t) + 1 ≤ f := by
            simp only [jsize] at hsz
            omega
          simp only [jsonEmit, List.cons_append, List.append_assoc, List.singleton_append,
            List.nil_append, pVal, if_true]
          rw [ht2]
          simp only [List.cons_append]
          rw [if_neg hc1ne]
          rw [← List.cons_append, ← ht2]
          rw [(ih f (Nat.lt_succ_self f)).2.1 (x :: t) rest (by simp) hszl]
          rfl
      | obj es =>
        cases es with
        | nil =>
          simp only [jsonEmit, emitMembers, List.nil_append, List.cons_append, pVal,
            if_true]
          rw [if_neg (by decide : ¬ lbraceChar = '"'),
            if_neg (by decide : ¬ lbraceChar = '[')]
        | cons e t =>
          have hhead : ∃ t2, emitMembers (e :: t) = '"' :: t2 := by
            cases t with
            | nil =>
              exact ⟨e.1.data.flatMap escChar ++ ['"'] ++ ':' :: jsonEmit e.2, by
                simp [emitMembers, escStr, List.cons_append, List.append_assoc]⟩
            | cons f2 t3 =>
              exact ⟨e.1.data.flatMap escChar ++ ['"'] ++ ':' :: jsonEmit e.2
                  ++ ',' :: emitMembers (f2 :: t3), by
                simp [emitMembers, escStr, List.cons_append, List.append_assoc]⟩
          obtain ⟨t2, ht2⟩ := hhead
          have hszm : jsizeM (e :: t) + 1 ≤ f := by
            simp only [jsize] at hsz
            omega
          simp only [jsonEmit, List.cons_append, List.append_assoc, List.singleton_append,
            List.nil_append, pVal, if_true]
          rw [ht2]
          simp only [List.cons_append]
          rw [if_neg (by decide : ¬ ('"' : Char) = rbraceChar)]
          rw [← List.cons_append, ← ht2]
          rw [(ih f (Nat.lt_succ_self f)).2.2 (e :: t) rest (by simp) hszm]
          rfl
  · intro xs rest hne hsz
    cases fuel with
    | zero => exact absurd hsz (by have := jsizeL_pos xs; omega)
    | succ f =>
      match xs, hne with
      | x :: t, _ =>
      cases t with
      | nil =>
        have hszx : jsize x ≤ f := by
          simp only [jsizeL] at hsz
          omega
        simp only [emitElems, pElems]
        rw [(ih f (Nat.lt_succ_self f)).1 x (']' :: rest) hszx (by
          show (']' : Char).isDigit = false
          decide)]
        simp
      | cons y t2 =>
        have hszx : jsize x ≤ f := by
          have h1 := jsizeL_pos (y :: t2)
          simp only [jsizeL] at hsz
          omega
        have hszt : jsizeL (y :: t2) + 1 ≤ f := by
          have h1 := jsize_pos x
          simp only [jsizeL] at hsz ⊢
          omega
        simp only [emitElems, pElems, List.append_assoc, List.cons_append]
        rw [(ih f (Nat.lt_succ_self f)).1 x (',' :: (emitElems (y :: t2) ++ ']' :: rest))
          hszx (by show (',' : Char).isDigit = false; decide)]
        simp only [if_pos rfl]
        rw [(ih f (Nat.lt_succ_self f)).2.1 (y :: t2) rest (by simp) hszt]
        rfl
  · intro es rest hne hsz
    cases fuel with
    | zero => exact absurd hsz (by have := jsizeM_pos es; omega)
    | succ f =>
      match es, hne with
      | e :: t, _ =>
      have hkey : ∀ X : List Char, escStr e.1 ++ ':' :: X
          = '"' :: (e.1.data.flatMap escChar ++ '"' :: ':' :: X) := by
        intro X
        simp [escStr, List.cons_append, List.append_assoc]
      cases t with
      | nil =>
        have hszv : jsize e.2 ≤ f := by
          simp only [jsizeM] at hsz
          omega
        show pMembers (f + 1) (emitMembers [e] ++ rbraceChar :: rest) = some ([e], rest)
        simp only [emitMembers, List.append_assoc, List.cons_append]
        rw [hkey (jsonEmit e.2 ++ rbraceChar :: rest)]
        simp only [pMembers]
        rw [pStrBody_emit e.1.data _ _ (by
          have := flatMap_escChar_ge e.1.data
          simp only [List.length_append, List.length_cons]
          omega)]
        simp only [List.cons_append]
        rw [(ih f (Nat.lt_succ_self f)).1 e.2 (rbraceChar :: rest) hszv (by
          show rbraceChar.isDigit = false
          decide)]
        simp only [if_neg (by decide : ¬ rbraceChar = ','), if_pos rfl]
        rfl
      | cons f2 t3 =>
        have hszv : jsize e.2 ≤ f := by
          have h1 := jsizeM_pos t3
          have h2 := jsize_pos f2.2
          simp only [jsizeM] at hsz
          omega
        have hszt : jsizeM (f2 :: t3) + 1 ≤ f := by
          have h1 := jsize_pos e.2
          simp only [jsizeM] at hsz ⊢
          omega
        show pMembers (f + 1) (emitMembers (e :: f2 :: t3) ++ rbraceChar :: rest)
          = some (e :: f2 :: t3, rest)
        simp only [emitMembers, List.append_assoc, List.cons_append]
        rw [hkey (jsonEmit e.2 ++ ',' :: (emitMembers (f2 :: t3) ++ rbraceChar :: rest))]
        simp only [pMembers]
        rw [pStrBody_emit e.1.data _ _ (by
          have := flatMap_escChar_ge e.1.data
          simp only [List.length_append, List.length_cons]
          omega)]
        simp only [List.cons_append]
        rw [(ih f (Nat.lt_succ_self f)).1 e.2
          (',' :: (emitMembers (f2 :: t3) ++ rbraceChar :: rest)) hszv (by
          show (',' : Char).isDigit = false
          decide)]
        simp only [if_pos rfl]
        rw [(ih f (Nat.lt_succ_self f)).2.2 (f2 :: t3) rest (by simp) hszt]
        rfl

/-- **Round-trip**: parsing a serialized value returns the value. -/
theorem jsonParse_emit (v : Json) : jsonParse (String.mk (jsonEmit v)) = some v := by
  unfold jsonParse
  have h := (parse_emit (2 * (jsonEmit v).length + 2)).1 v []
    (le_trans (emit_size v) (by omega)) trivial
  simp only [List.append_nil] at h
  show (match pVal (2 * (jsonEmit v).length + 2) (jsonEmit v) with
    | some (v, []) => some v
    | _ => none) = some v
  rw [h]

/-!
### Local storage and generation history

`utils.js` wraps `localStorage` in `getFromStorage`/`saveToStorage`
(JSON-stringifying values on the way in, parsing them on the way out, and
returning the supplied default when the key is absent, the stored string is
falsy, or parsing throws).  `UIController` persists its generation history
under the key `voiceforge-history`: `addToHistory` builds an item record,
unshifts it, pops when the list exceeds 10 entries, and saves; the per-item
delete handler filters by id and saves; `loadHistory` reads the key back.
-/

/-- `localStorage` contents: key/value string pairs, most recent write first. -/
def Storage : Type := List (String × String)

/-- `localStorage.getItem`: the most recently written value for the key. -/
def getItem : Storage → String → Option String
  | [], _ => none
  | (k2, v) :: t, key => if k2 = key then some v else getItem t key

/-- `localStorage.setItem`: record the new value for the key. -/
def setItem (st : Storage) (key val : String) : Storage :=
  (key, val) :: st

/-- `utils.js getFromStorage(key, defaultValue)`: `JSON.parse` the stored
string; the default is returned when the key is absent, the stored string is
falsy (empty), or parsing throws. -/
def getFromStorage (st : Storage) (key : String) (defaultValue : Json) : Json :=
  match getItem st key with
  | none => defaultValue
  | some v => if v = "" then defaultValue else (jsonParse v).getD defaultValue

/-- `utils.js saveToStorage(key, value)`: store `JSON.stringify(value)` and
return `true` (the `catch` branch returning `false` is a quota failure of the
host, outside this model). -/
def saveToStorage (st : Storage) (key : String) (value : Json) : Storage × Bool :=
  (setItem st key (String.mk (jsonEmit value)), true)

/-- `utils.js HISTORY_STORAGE_KEY`. -/
def HISTORY_STORAGE_KEY : String := "voiceforge-history"

/-- One history record as built by `UIController.addToHistory`. -/
structure HistoryItem where
  id : String
  text : String
  voiceName : String
  duration : Int
  timestamp : String

/-- The JSON value `JSON.stringify` sees for one history item (object keys in
insertion order). -/
def historyItemJson (i : HistoryItem) : Json :=
  Json.obj [("id", Json.str i.id), ("text", Json.str i.text),
    ("voiceName", Json.str i.voiceName), ("duration", Json.num i.duration),
    ("timestamp", Json.str i.timestamp)]

/-- The JSON value for the whole history array. -/
def historyJson (h : List HistoryItem) : Json :=
  Json.arr (h.map historyItemJson)

/-- `utils.js VOICES`, projected to the `(id, name)` fields used by
`addToHistory`. -/
def VOICES : List (String × String) :=
  [("en_US-lessac-high", "Lessac"), ("en_US-hfc_female-medium", "HFC Female"),
   ("en_US-john-medium", "John"), ("en_US-libritts_r-medium", "LibriTTS"),
   ("en_US-sam-medium", "Sam"), ("en_GB-cori-high", "Cori (UK)"),
   ("en_GB-alan-medium", "Alan"), ("en_GB-alba-medium", "Alba"),
   ("en_GB-aru-medium", "Aru"), ("en_GB-jenny_dioco-medium", "Jenny"),
   ("de_DE-mls-medium", "Deutsch"), ("es_ES-davefx-medium", "Español"),
   ("fr_FR-gilles-low", "Français"), ("sw_CD-lanfrica-medium", "Swahili"),
   ("zh_CN-huayan-medium", "中文 (Chinese)")]

/-- `text.substring(0, 100)`. -/
def jsSubstring100 (s : String) : String := String.mk (s.data.take 100)

/-- The item record literal in `addToHistory`: `id` is the stringified
`Date.now()`, `text` is truncated to 100 characters, `voiceName` is
`voice?.name || "Unknown"`, `timestamp` is the host's locale time string. -/
def mkHistoryItem (nowId : String) (text voiceId : String) (duration : Int)
    (timestamp : String) : HistoryItem :=
  { id := nowId
  , text := jsSubstring100 text
  , voiceName :=
      match VOICES.find? (fun v => v.1 = voiceId) with
      | none => "Unknown"
      | some v => if v.2 = "" then "Unknown" else v.2
  , duration := duration
  , timestamp := timestamp }

/-- `this.history.unshift(item); if (this.history.length > 10) this.history.pop()`. -/
def addToHistoryList (h : List HistoryItem) (item : HistoryItem) : List HistoryItem :=
  let h2 := item :: h
  if 10 < h2.length then h2.dropLast else h2

/-- `UIController.addToHistory`: build the item, cap the list at 10, save
under `HISTORY_STORAGE_KEY`; returns the new history list and storage. -/
def UIController.addToHistory (h : List HistoryItem) (st : Storage)
    (nowId text voiceId : String) (duration : Int) (timestamp : String) :
    List HistoryItem × Storage :=
  let item := mkHistoryItem nowId text voiceId duration timestamp
  let h2 := addToHistoryList h item
  (h2, (saveToStorage st HISTORY_STORAGE_KEY (historyJson h2)).1)

/-- The history-item delete handler in `renderHistory`: filter out the id and
save. -/
def deleteHistoryItem (h : List HistoryItem) (st : Storage) (itemId : String) :
    List HistoryItem × Storage :=
  let h2 := h.filter (fun x => x.id != itemId)
  (h2, (saveToStorage st HISTORY_STORAGE_KEY (historyJson h2)).1)

/-- `Array.isArray`. -/
def jsonAsArray : Json → Option (List Json)
  | Json.arr l => some l
  | _ => none

/-- `UIController.loadHistory`: read the stored history; adopt it only when it
is a non-empty array, otherwise keep the current history. -/
def UIController.loadHistory (st : Storage) (current : List Json) : List Json :=
  match jsonAsArray (getFromStorage st HISTORY_STORAGE_KEY (Json.arr [])) with
  | some l => if 0 < l.length then l else current
  | none => current

theorem getFromStorage_save (st : Storage) (k : String) (j d : Json)
    (hne : jsonEmit j ≠ []) :
    getFromStorage (saveToStorage st k j).1 k d = j := by
  have hv : ¬ (String.mk (jsonEmit j) = "") :=
    fun hstr => hne (congrArg String.data hstr)
  show getFromStorage (setItem st k (String.mk (jsonEmit j))) k d = j
  unfold getFromStorage setItem getItem
  rw [if_pos rfl]
  show (if String.mk (jsonEmit j) = "" then d
    else (jsonParse (String.mk (jsonEmit j))).getD d) = j
  rw [if_neg hv, jsonParse_emit]
  rfl

theorem historyJson_emit_ne (h : List HistoryItem) : jsonEmit (historyJson h) ≠ [] := by
  simp [historyJson, jsonEmit]

theorem addToHistory_store (h : List HistoryItem) (st : Storage)
    (nowId text voiceId : String) (dur : Int) (ts : String) :
    getFromStorage (UIController.addToHistory h st nowId text voiceId dur ts).2
        HISTORY_STORAGE_KEY (Json.arr [])
      = historyJson (UIController.addToHistory h st nowId text voiceId dur ts).1 := by
  show getFromStorage
      (saveToStorage st HISTORY_STORAGE_KEY
        (historyJson (addToHistoryList h (mkHistoryItem nowId text voiceId dur ts)))).1
      HISTORY_STORAGE_KEY (Json.arr [])
    = historyJson (addToHistoryList h (mkHistoryItem nowId text voiceId dur ts))
  exact getFromStorage_save st HISTORY_STORAGE_KEY _ _ (historyJson_emit_ne _)

theorem delete_store (h : List HistoryItem) (st : Storage) (itemId : String) :
    getFromStorage (deleteHistoryItem h st itemId).2 HISTORY_STORAGE_KEY (Json.arr [])
      = historyJson (deleteHistoryItem h st itemId).1 := by
  show getFromStorage
      (saveToStorage st HISTORY_STORAGE_KEY
        (historyJson (h.filter (fun x => x.id != itemId)))).1
      HISTORY_STORAGE_KEY (Json.arr [])
    = historyJson (h.filter (fun x => x.id != itemId))
  exact getFromStorage_save st HISTORY_STORAGE_KEY _ _ (historyJson_emit_ne _)

theorem addToHistoryList_length (h : List HistoryItem) (i : HistoryItem) :
    (addToHistoryList h i).length =
      if 10 < h.length + 1 then h.length else h.length + 1 := by
  unfold addToHistoryList
  by_cases hl : 10 < h.length + 1
  · rw [if_pos (by simpa using hl), if_pos hl]
    simp
  · rw [if_neg (by simpa using hl), if_neg hl]
    simp

/-- **C9**: history persists round-trip through local storage.  After
`addToHistory` (or a history-item delete) saves the list under
`voiceforge-history`, reading that key back with `getFromStorage` (also as
`loadHistory` does on construction) yields exactly the saved list's JSON;
and when nothing is stored under a key, or the stored string fails to parse,
`getFromStorage` returns the supplied default. -/
theorem C9_history_storage_roundtrip :
    (∀ (h : List HistoryItem) (st : Storage) (nowId text voiceId : String)
        (dur : Int) (ts : String),
      getFromStorage (UIController.addToHistory h st nowId text voiceId dur ts).2
          HISTORY_STORAGE_KEY (Json.arr [])
        = historyJson (UIController.addToHistory h st nowId text voiceId dur ts).1)
    ∧ (∀ (h : List HistoryItem) (st : Storage) (itemId : String),
      getFromStorage (deleteHistoryItem h st itemId).2 HISTORY_STORAGE_KEY (Json.arr [])
        = historyJson (deleteHistoryItem h st itemId).1)
    ∧ (∀ (h : List HistoryItem) (st : Storage) (nowId text voiceId : String)
        (dur : Int) (ts : String) (current : List Json),
      UIController.loadHistory
          (UIController.addToHistory h st nowId text voiceId dur ts).2 current
        = ((UIController.addToHistory h st nowId text voiceId dur ts).1).map
            historyItemJson)
    ∧ (∀ (st : Storage) (key : String) (d : Json),
      getItem st key = none → getFromStorage st key d = d)
    ∧ (∀ (st : Storage) (key : String) (d : Json) (v : String),
      getItem st key = some v → jsonParse v = none → getFromStorage st key d = d) := by
  refine ⟨fun h st a b c dν ts => addToHistory_store h st a b c dν ts,
    fun h st i => delete_store h st i, ?_, ?_, ?_⟩
  · intro h st a b c dν ts current
    have hpos : 0 < (addToHistoryList h (mkHistoryItem a b c dν ts)).length := by
      rw [addToHistoryList_length]
      by_cases h10 : 10 < h.length + 1
      · rw [if_pos h10]; omega
      · rw [if_neg h10]; omega
    unfold UIController.loadHistory
    rw [addToHistory_store]
    show (match jsonAsArray (historyJson
        (addToHistoryList h (mkHistoryItem a b c dν ts))) with
      | some l => if 0 < l.length then l else current
      | none => current)
      = (addToHistoryList h (mkHistoryItem a b c dν ts)).map historyItemJson
    simp only [historyJson, jsonAsArray]
    rw [if_pos (by simpa using hpos)]
  · intro st key d hnone
    unfold getFromStorage
    rw [hnone]
  · intro st key d v hv hp
    unfold getFromStorage
    rw [hv]
    show (if v = "" then d else (jsonParse v).getD d) = d
    by_cases hv0 : v = ""
    · rw [if_pos hv0]
    · rw [if_neg hv0, hp]
      rfl

theorem C9_history_storage_roundtrip_witness :
    getItem ([] : Storage) "k" = none
    ∧ getFromStorage ([] : Storage) "k" (Json.num 7) = Json.num 7
    ∧ getItem [("k", "not json")] "k" = some "not json"
    ∧ jsonParse "not json" = none
    ∧ getFromStorage [("k", "not json")] "k" (Json.num 7) = Json.num 7
    ∧ getFromStorage
        (UIController.addToHistory [] [] "1" "hello" "en_US-lessac-high" 3 "t").2
        HISTORY_STORAGE_KEY (Json.arr [])
      = historyJson
          (UIController.addToHistory [] [] "1" "hello" "en_US-lessac-high" 3 "t").1 :=
  ⟨rfl,
   C9_history_storage_roundtrip.2.2.2.1 [] "k" (Json.num 7) rfl,
   rfl,
   rfl,
   C9_history_storage_roundtrip.2.2.2.2 [("k", "not json")] "k" (Json.num 7)
     "not json" rfl rfl,
   C9_history_storage_roundtrip.1 [] [] "1" "hello" "en_US-lessac-high" 3 "t"⟩

/-- A user-visible history operation: a generation (`addToHistory`) or a
history-item delete. -/
inductive HistOp where
  | add (nowId text voiceId : String) (dur : Int) (ts : String)
  | del (itemId : String)

/-- Apply one history operation to the controller's history-and-storage state. -/
def applyOp (s : List HistoryItem × Storage) (op : HistOp) :
    List HistoryItem × Storage :=
  match op with
  | .add nowId text voiceId dur ts =>
      UIController.addToHistory s.1 s.2 nowId text voiceId dur ts
  | .del itemId => deleteHistoryItem s.1 s.2 itemId

theorem applyOp_le (s : List HistoryItem × Storage) (op : HistOp)
    (hs : s.1.length ≤ 10) : ((applyOp s op).1).length ≤ 10 := by
  cases op with
  | add a b c dν ts =>
    show (addToHistoryList s.1 (mkHistoryItem a b c dν ts)).length ≤ 10
    rw [addToHistoryList_length]
    by_cases h10 : 10 < s.1.length + 1
    · rw [if_pos h10]; omega
    · rw [if_neg h10]; omega
  | del i =>
    show ((s.1.filter (fun x => x.id != i))).length ≤ 10
    exact le_trans (List.length_filter_le _ _) hs

theorem foldl_applyOp_le (ops : List HistOp) :
    ∀ s : List HistoryItem × Storage, s.1.length ≤ 10 →
      ((ops.foldl applyOp s).1).length ≤ 10 := by
  induction ops with
  | nil => intro s hs; exact hs
  | cons op t ihp => intro s hs; exact ihp _ (applyOp_le s op hs)

/-- **C10**: starting from a history of at most 10 items, any sequence of
`addToHistory` / delete operations keeps the history at 10 items or fewer;
each `addToHistory` puts the new item at the front and, exactly when the list
would exceed 10 entries, pops the oldest (last) one. -/
theorem C10_history_cap :
    (∀ (h0 : List HistoryItem) (st0 : Storage) (ops : List HistOp),
      h0.length ≤ 10 → ((ops.foldl applyOp (h0, st0)).1).length ≤ 10)
    ∧ (∀ (h : List HistoryItem) (st : Storage) (nowId text voiceId : String)
        (dur : Int) (ts : String),
      (UIController.addToHistory h st nowId text voiceId dur ts).1 =
        if 10 < h.length + 1
        then (mkHistoryItem nowId text voiceId dur ts :: h).dropLast
        else mkHistoryItem nowId text voiceId dur ts :: h) := by
  refine ⟨fun h0 st0 ops hle => foldl_applyOp_le ops (h0, st0) hle, ?_⟩
  intro h st a b c dν ts
  show addToHistoryList h (mkHistoryItem a b c dν ts) =
    if 10 < h.length + 1
    then (mkHistoryItem a b c dν ts :: h).dropLast
    else mkHistoryItem a b c dν ts :: h
  simp only [addToHistoryList, List.length_cons]

theorem C10_history_cap_witness :
    ([] : List HistoryItem).length ≤ 10
    ∧ ((([HistOp.add "1" "t" "v" 2 "ts"]).foldl applyOp
        (([] : List HistoryItem), ([] : Storage))).1).length ≤ 10 :=
  ⟨by decide, C10_history_cap.1 [] [] [HistOp.add "1" "t" "v" 2 "ts"] (by decide)⟩
